import Mathlib

/-!
Verification of the report-aggregation engine of the "Analisis de pedidos"
application (source: src/utils/dataProcessor.ts, UI shell App.tsx, types.ts).

The TypeScript source is shallowly embedded: JS numbers are modelled as exact
rationals extended with a NaN element (`JsNum`); JS objects used as string-keyed
maps (and ES `Map`s) are modelled as association lists with JS insertion-order
semantics (updating an existing key keeps its position, a new key is appended);
ES `Set`s are modelled as duplicate-free lists in insertion order.  Platform
builtins used by the source (`String.prototype.includes`, `Number`,
`Array.prototype.sort`, `String.prototype.localeCompare`) are modelled
explicitly next to their uses.
-/

namespace Pedidos

/-! ### Association lists with JS object / ES Map semantics -/

/-- Lookup of a key in an association list: first binding wins
(JS property access / `Map.get`). -/
def alGet (m : List (String × α)) (k : String) : Option α :=
  (m.find? (fun kv => kv.1 == k)).map (·.2)

/-- JS assignment `obj[k] = v` / `map.set(k, v)`: an existing key keeps its
position, a new key is appended at the end. -/
def alSet (m : List (String × α)) (k : String) (v : α) : List (String × α) :=
  match m with
  | [] => [(k, v)]
  | kv :: rest => if kv.1 = k then (k, v) :: rest else kv :: alSet rest k v

/-- In-place update of the value bound to `k` (no-op when `k` is absent). -/
def alModify (m : List (String × α)) (k : String) (f : α → α) : List (String × α) :=
  match m with
  | [] => []
  | kv :: rest => if kv.1 = k then (kv.1, f kv.2) :: rest else kv :: alModify rest k f

/-- Keys of an association list, in order. -/
def keysOf (m : List (String × α)) : List String := m.map (·.1)

theorem alGet_nil (k : String) : alGet ([] : List (String × α)) k = none := rfl

theorem alGet_cons (kv : String × α) (m : List (String × α)) (k : String) :
    alGet (kv :: m) k = if kv.1 = k then some kv.2 else alGet m k := by
  simp only [alGet, List.find?]
  by_cases h : kv.1 = k
  · simp [h]
  · simp [h, beq_eq_false_iff_ne.mpr h]

theorem alGet_mem {m : List (String × α)} {k : String} {v : α}
    (h : alGet m k = some v) : (k, v) ∈ m := by
  induction m with
  | nil => simp [alGet_nil] at h
  | cons kv rest ih =>
    obtain ⟨a, b⟩ := kv
    rw [alGet_cons] at h
    by_cases hk : (a, b).1 = k
    · rw [if_pos hk] at h
      simp only at hk
      subst hk
      cases h
      exact List.mem_cons_self _ _
    · rw [if_neg hk] at h
      exact List.mem_cons_of_mem _ (ih h)

theorem alGet_of_mem {m : List (String × α)} {k : String} {v : α}
    (hnd : (keysOf m).Nodup) (h : (k, v) ∈ m) : alGet m k = some v := by
  induction m with
  | nil => simp at h
  | cons kv rest ih =>
    simp only [keysOf, List.map_cons, List.nodup_cons] at hnd
    rcases List.mem_cons.mp h with h1 | h1
    · subst h1
      rw [alGet_cons, if_pos rfl]
    · rw [alGet_cons]
      have hk : kv.1 ≠ k := by
        intro he
        exact hnd.1 (he ▸ (List.mem_map.mpr ⟨(k, v), h1, rfl⟩))
      rw [if_neg hk]
      exact ih hnd.2 h1

theorem keysOf_alModify (m : List (String × α)) (k : String) (f : α → α) :
    keysOf (alModify m k f) = keysOf m := by
  induction m with
  | nil => rfl
  | cons kv rest ih =>
    simp only [alModify]
    by_cases h : kv.1 = k
    · simp [keysOf, h]
    · simp only [if_neg h, keysOf, List.map_cons, List.cons.injEq, true_and]
      exact ih

theorem alGet_alModify_ne (m : List (String × α)) (k k' : String) (f : α → α)
    (h : k' ≠ k) : alGet (alModify m k f) k' = alGet m k' := by
  induction m with
  | nil => rfl
  | cons kv rest ih =>
    simp only [alModify]
    by_cases hk : kv.1 = k
    · rw [if_pos hk, alGet_cons, alGet_cons]
      have h2 : kv.1 ≠ k' := fun he => h (he.symm.trans hk)
      rw [if_neg (h2 : ¬ ((kv.1, f kv.2).1 = k')), if_neg h2]
    · rw [if_neg hk, alGet_cons, alGet_cons]
      by_cases hk' : kv.1 = k'
      · rw [if_pos hk', if_pos hk']
      · rw [if_neg hk', if_neg hk']
        exact ih

theorem alGet_alModify_self {m : List (String × α)} {k : String} {v : α} (f : α → α)
    (h : alGet m k = some v) : alGet (alModify m k f) k = some (f v) := by
  induction m with
  | nil => simp [alGet_nil] at h
  | cons kv rest ih =>
    rw [alGet_cons] at h
    simp only [alModify]
    by_cases hk : kv.1 = k
    · simp only [if_pos hk] at h ⊢
      cases h
      rw [alGet_cons, if_pos hk]
    · simp only [if_neg hk] at h ⊢
      rw [alGet_cons, if_neg hk]
      exact ih h

theorem alGet_alModify_none (m : List (String × α)) (k : String) (f : α → α)
    (h : alGet m k = none) : alModify m k f = m := by
  induction m with
  | nil => rfl
  | cons kv rest ih =>
    rw [alGet_cons] at h
    by_cases hk : kv.1 = k
    · simp [hk] at h
    · simp only [if_neg hk] at h
      simp only [alModify, if_neg hk, List.cons.injEq, true_and]
      exact ih h

/-- Every element of `alModify m k f` either comes from `m` unchanged, or is the
modified binding of `k`. -/
theorem mem_alModify_of {m : List (String × α)} {k : String} {f : α → α}
    (P : String × α → Prop)
    (hm : ∀ kp ∈ m, P kp) (hf : ∀ v, P (k, v) → P (k, f v)) :
    ∀ kp ∈ alModify m k f, P kp := by
  induction m with
  | nil => intro kp h; simp [alModify] at h
  | cons kv rest ih =>
    intro kp hkp
    simp only [alModify] at hkp
    by_cases hk : kv.1 = k
    · rw [if_pos hk] at hkp
      rcases List.mem_cons.mp hkp with h1 | h1
      · subst h1
        have h2 : P (kv.1, kv.2) := hm kv (List.mem_cons_self _ _)
        rw [hk] at h2 ⊢
        exact hf kv.2 h2
      · exact hm kp (List.mem_cons_of_mem _ h1)
    · rw [if_neg hk] at hkp
      rcases List.mem_cons.mp hkp with h1 | h1
      · exact h1 ▸ hm kv (List.mem_cons_self _ _)
      · exact ih (fun q hq => hm q (List.mem_cons_of_mem _ hq)) kp h1

theorem alGet_append_single_ne (m : List (String × α)) (k k' : String) (v : α)
    (h : k' ≠ k) : alGet (m ++ [(k, v)]) k' = alGet m k' := by
  induction m with
  | nil =>
    rw [List.nil_append, alGet_cons]
    exact if_neg (fun he => h (he.symm : k' = k))
  | cons kv rest ih =>
    rw [List.cons_append, alGet_cons, alGet_cons]
    by_cases hk : kv.1 = k'
    · rw [if_pos hk, if_pos hk]
    · rw [if_neg hk, if_neg hk]; exact ih

theorem alGet_append_single_self (m : List (String × α)) (k : String) (v : α)
    (h : alGet m k = none) : alGet (m ++ [(k, v)]) k = some v := by
  induction m with
  | nil => simp [alGet_cons]
  | cons kv rest ih =>
    rw [alGet_cons] at h
    by_cases hk : kv.1 = k
    · simp [hk] at h
    · simp only [if_neg hk] at h
      rw [List.cons_append, alGet_cons, if_neg hk]
      exact ih h

/-! ### ES `Set` model: duplicate-free lists in insertion order -/

/-- `Set.add`: appends the element unless already present. -/
def setAdd (s : List String) (x : String) : List String :=
  if x ∈ s then s else s ++ [x]

theorem setAdd_toFinset (s : List String) (x : String) :
    (setAdd s x).toFinset = insert x s.toFinset := by
  unfold setAdd
  by_cases h : x ∈ s
  · rw [if_pos h]
    exact (Finset.insert_eq_self.mpr (List.mem_toFinset.mpr h)).symm
  · rw [if_neg h, List.toFinset_append, Finset.union_comm]
    simp [Finset.insert_eq]

theorem setAdd_nodup {s : List String} (h : s.Nodup) (x : String) :
    (setAdd s x).Nodup := by
  unfold setAdd
  by_cases hx : x ∈ s
  · rwa [if_pos hx]
  · rw [if_neg hx]
    simpa [List.nodup_append] using ⟨h, hx⟩

/-- First-occurrence deduplication with an accumulator of already-seen
elements: the observable content of iterating an ES `Set` built by repeated
insertion (`Array.from(new Set(xs))`). -/
def dedupFirstAux (seen : List String) : List String → List String
  | [] => []
  | a :: rest =>
    if a ∈ seen then dedupFirstAux seen rest
    else a :: dedupFirstAux (a :: seen) rest

def dedupFirst (xs : List String) : List String := dedupFirstAux [] xs

theorem mem_dedupFirstAux {x : String} :
    ∀ {xs seen : List String}, x ∈ dedupFirstAux seen xs ↔ x ∈ xs ∧ x ∉ seen := by
  intro xs
  induction xs with
  | nil => intro seen; simp [dedupFirstAux]
  | cons a rest ih =>
    intro seen
    simp only [dedupFirstAux]
    by_cases ha : a ∈ seen
    · rw [if_pos ha, ih]
      constructor
      · rintro ⟨h1, h2⟩
        exact ⟨List.mem_cons_of_mem _ h1, h2⟩
      · rintro ⟨h1, h2⟩
        rcases List.mem_cons.mp h1 with rfl | h1
        · exact absurd ha h2
        · exact ⟨h1, h2⟩
    · rw [if_neg ha]
      constructor
      · intro hmem
        rcases List.mem_cons.mp hmem with rfl | hmem2
        · exact ⟨List.mem_cons_self _ _, ha⟩
        · rcases ih.mp hmem2 with ⟨h1, h2⟩
          exact ⟨List.mem_cons_of_mem _ h1, fun hs => h2 (List.mem_cons_of_mem _ hs)⟩
      · rintro ⟨h1, h2⟩
        rcases List.mem_cons.mp h1 with rfl | h1
        · exact List.mem_cons_self _ _
        · by_cases hxa : x = a
          · subst hxa; exact List.mem_cons_self _ _
          · exact List.mem_cons_of_mem _
              (ih.mpr ⟨h1, fun hs => (List.mem_cons.mp hs).elim hxa h2⟩)

theorem mem_dedupFirst {x : String} {xs : List String} :
    x ∈ dedupFirst xs ↔ x ∈ xs := by
  rw [dedupFirst, mem_dedupFirstAux]
  simp

theorem nodup_dedupFirstAux :
    ∀ {xs seen : List String}, (dedupFirstAux seen xs).Nodup := by
  intro xs
  induction xs with
  | nil => intro seen; simp [dedupFirstAux]
  | cons a rest ih =>
    intro seen
    simp only [dedupFirstAux]
    by_cases ha : a ∈ seen
    · rw [if_pos ha]; exact ih
    · rw [if_neg ha]
      refine List.nodup_cons.mpr ⟨?_, ih⟩
      intro hmem
      exact (mem_dedupFirstAux.mp hmem).2 (List.mem_cons_self _ _)

theorem nodup_dedupFirst (xs : List String) : (dedupFirst xs).Nodup :=
  nodup_dedupFirstAux

/-! ### Substring matching (`String.prototype.includes`) -/

/-- Boolean test that the first list is a contiguous leading segment of the
second. -/
def leadSeg : List Char → List Char → Bool
  | [], _ => true
  | _ :: _, [] => false
  | a :: as, b :: bs => a == b && leadSeg as bs

/-- Boolean test that the first list occurs contiguously inside the second. -/
def occursIn (n : List Char) : List Char → Bool
  | [] => n.isEmpty
  | h@(_ :: t) => leadSeg n h || occursIn n t

theorem leadSeg_iff {n h : List Char} :
    leadSeg n h = true ↔ ∃ post, h = n ++ post := by
  induction n generalizing h with
  | nil => simp [leadSeg]
  | cons a as ih =>
    cases h with
    | nil =>
      simp only [leadSeg]
      constructor
      · intro hf; cases hf
      · rintro ⟨post, hpost⟩; cases hpost
    | cons b bs =>
      simp only [leadSeg, Bool.and_eq_true, beq_iff_eq]
      rw [ih]
      constructor
      · rintro ⟨rfl, post, rfl⟩
        exact ⟨post, rfl⟩
      · rintro ⟨post, hpost⟩
        rw [List.cons_append] at hpost
        cases hpost
        exact ⟨rfl, post, rfl⟩

theorem occursIn_iff {n h : List Char} :
    occursIn n h = true ↔ ∃ pre post, h = pre ++ n ++ post := by
  induction h with
  | nil =>
    simp only [occursIn, List.isEmpty_iff]
    constructor
    · rintro rfl; exact ⟨[], [], rfl⟩
    · rintro ⟨pre, post, hp⟩
      rcases List.append_eq_nil.mp (List.append_eq_nil.mp hp.symm).1 with ⟨-, h2⟩
      exact h2
  | cons b bs ih =>
    simp only [occursIn, Bool.or_eq_true, leadSeg_iff, ih]
    constructor
    · rintro (⟨post, hp⟩ | ⟨pre, post, rfl⟩)
      · exact ⟨[], post, by simpa using hp⟩
      · exact ⟨b :: pre, post, by simp⟩
    · rintro ⟨pre, post, hp⟩
      cases pre with
      | nil =>
        left
        exact ⟨post, by simpa using hp⟩
      | cons c cs =>
        right
        rw [List.cons_append, List.cons_append] at hp
        cases hp
        exact ⟨cs, post, by simp⟩

/-- Model of `haystack.includes(needle)` (case-sensitive substring test). -/
def jsIncludes (haystack needle : String) : Bool :=
  occursIn needle.toList haystack.toList

/-- Substring containment as a proposition, the way the spec words it. -/
def ContainsSubstr (needle haystack : String) : Prop :=
  ∃ pre post, haystack.toList = pre ++ needle.toList ++ post

theorem jsIncludes_iff {haystack needle : String} :
    jsIncludes haystack needle = true ↔ ContainsSubstr needle haystack :=
  occursIn_iff

/-! ### JS numbers: exact rationals extended with NaN

JS `number` arithmetic as used by the source (addition of amounts and
quantities, division by the constant `1.18`) is modelled over exact rationals;
`NaN`, which arises from `Number()` coercion of non-numeric strings, is an
explicit absorbing element.  Floating-point rounding is not modelled: the spec
itself (§4.3) treats division as ideal, and no claim depends on rounding. -/

inductive JsNum where
  | nan : JsNum
  | num (q : ℚ) : JsNum
deriving DecidableEq, Repr

namespace JsNum

def add : JsNum → JsNum → JsNum
  | num a, num b => num (a + b)
  | _, _ => nan

instance : Add JsNum := ⟨add⟩
instance : Zero JsNum := ⟨num 0⟩

theorem add_def (a b : JsNum) : a + b = add a b := rfl

theorem nan_add (a : JsNum) : nan + a = nan := by cases a <;> rfl

theorem add_nan (a : JsNum) : a + nan = nan := by cases a <;> rfl

theorem num_add_num (a b : ℚ) : (num a) + (num b) = num (a + b) := rfl

theorem jsAddAssoc (a b c : JsNum) : a + b + c = a + (b + c) := by
  cases a with
  | nan => rw [nan_add, nan_add, nan_add]
  | num qa =>
    cases b with
    | nan => rw [add_nan, nan_add, add_nan]
    | num qb =>
      cases c with
      | nan => rw [add_nan, add_nan, add_nan]
      | num qc =>
        rw [num_add_num, num_add_num, num_add_num, num_add_num]
        exact congrArg num (add_assoc qa qb qc)

theorem jsAddComm (a b : JsNum) : a + b = b + a := by
  cases a with
  | nan => rw [nan_add, add_nan]
  | num qa =>
    cases b with
    | nan => rw [nan_add, add_nan]
    | num qb => rw [num_add_num, num_add_num]; exact congrArg num (add_comm qa qb)

theorem jsZeroAdd (a : JsNum) : 0 + a = a := by
  cases a with
  | nan => rfl
  | num q =>
    show num 0 + num q = num q
    rw [num_add_num]
    exact congrArg num (zero_add q)

theorem jsAddZero (a : JsNum) : a + 0 = a := by
  rw [jsAddComm]; exact jsZeroAdd a

instance : AddCommMonoid JsNum where
  add_assoc := jsAddAssoc
  zero_add := jsZeroAdd
  add_zero := jsAddZero
  add_comm := jsAddComm
  nsmul := nsmulRec

end JsNum

/-- JS `x / 1.18` on an amount, NaN-propagating. -/
def jsDivTax : JsNum → JsNum
  | JsNum.nan => JsNum.nan
  | JsNum.num q => JsNum.num (q / (118 / 100))

/-- JS `x || 0` applied to a possibly-absent cell value: `undefined`, `NaN`
and `0` are all falsy, so each of them yields `0`. -/
def jsOrZero : Option JsNum → JsNum
  | none => JsNum.num 0
  | some JsNum.nan => JsNum.num 0
  | some (JsNum.num q) => JsNum.num q

/-! ### Data model (src/types.ts) -/

/-- One normalized transaction line (`ProcessedRow` in types.ts). -/
structure ProcessedRow where
  docId : String
  status : String
  groupName : String
  district : String
  salesRep : String
  totalAmount : JsNum
  itemId : String
  itemDesc : String
  quantity : JsNum
  clientName : String
  destination : String
deriving DecidableEq, Repr

/-- Report kinds (`ReportType` enum in types.ts). -/
inductive ReportType where
  | ORDER_COUNT
  | NET_AMOUNT
  | PRODUCT_LIST
  | CLIENT_SEARCH
deriving DecidableEq, Repr

/-- One output row of an aggregated report (`PivotData` in types.ts);
`values` is a JS object keyed by sales-representative name. -/
structure PivotData where
  rowKey : String
  rowLabel : String
  total : JsNum
  values : List (String × JsNum)
deriving DecidableEq, Repr

/-- Complete output of one aggregation run (`ReportResult` in types.ts). -/
structure ReportResult where
  columns : List String
  data : List PivotData
  grandTotal : JsNum
deriving DecidableEq, Repr

/-! ### Row Filter (dataProcessor.ts, `EXCLUDED_STATUS`, `ALLOWED_GROUPS`,
`filterRows`) -/

def EXCLUDED_STATUS : String := "Cerrado"

def ALLOWED_GROUPS : List String :=
  ["MAYORISTAS B", "MAYORISTAS C", "MAYORISTAS D", "MAYORISTAS E"]

/-- `filterRows` parameterized by the two module-level constants, for the
purity/state analysis; the source reads them from module scope. -/
def filterRowsWith (excludedStatus : String) (allowedGroups : List String)
    (rows : List ProcessedRow) : List ProcessedRow :=
  rows.filter fun row =>
    !(jsIncludes row.status excludedStatus) && allowedGroups.contains row.groupName

/-- `filterRows` from dataProcessor.ts: keep a row iff its status does not
contain the substring `EXCLUDED_STATUS` and its group is in `ALLOWED_GROUPS`. -/
def filterRows (rows : List ProcessedRow) : List ProcessedRow :=
  filterRowsWith EXCLUDED_STATUS ALLOWED_GROUPS rows

/-! ### Character-level models of JS string builtins (ASCII) -/

/-- ASCII case folding of one character (JS `toLowerCase` restricted to the
ASCII range the header and label strings use). -/
def jsCharToLower (c : Char) : Char :=
  if c.isUpper then Char.ofNat (c.toNat + 32) else c

/-- JS `s.toLowerCase()` (ASCII model). -/
def jsToLower (s : String) : String := String.mk (s.data.map jsCharToLower)

/-- Whitespace as trimmed by JS `trim()` (ASCII subset). -/
def jsIsWhite (c : Char) : Bool :=
  c = ' ' || c = '\t' || c = '\n' || c = '\r' || c = '\x0b' || c = '\x0c'

/-- JS `s.trim()` (ASCII-whitespace model). -/
def jsTrim (s : String) : String :=
  String.mk (((s.data.dropWhile jsIsWhite).reverse.dropWhile jsIsWhite).reverse)

/-- The character codes of a string. -/
def charCodes (s : String) : List ℕ := s.data.map Char.toNat

/-! ### Model of `String.prototype.localeCompare` (default locale)

The source sorts report rows with
`.sort((a, b) => a.rowLabel.localeCompare(b.rowLabel))`.  `localeCompare`
under the default (root) collation is NOT the code-unit lexical order: for
ASCII letters it compares case-insensitively at the primary level and, for
strings equal up to case, orders lowercase before uppercase.  We model it ICU
sort-key style: the key of a string is the list of its lowercased character
codes (shifted by 2), a `0` separator, then per-character case weights; keys
are compared lexicographically.  This models the root collation for ASCII
strings, which is what the repository's district/item labels use. -/

def localeKey (s : String) : List ℕ :=
  ((jsToLower s).data.map (fun c => c.toNat + 2)) ++
    0 :: (s.data.map (fun c => if c.isUpper then 1 else 0))

/-- Lexicographic boolean order on sort keys. -/
def keyLe : List ℕ → List ℕ → Bool
  | [], _ => true
  | _ :: _, [] => false
  | a :: as, b :: bs => if a < b then true else if b < a then false else keyLe as bs

/-- Model of `a.localeCompare(b) <= 0` (default locale, ASCII). -/
def localeLe (a b : String) : Bool := keyLe (localeKey a) (localeKey b)

theorem keyLe_trans : ∀ (a b c : List ℕ),
    keyLe a b = true → keyLe b c = true → keyLe a c = true := by
  intro a
  induction a with
  | nil => intro b c _ _; rfl
  | cons x xs ih =>
    intro b c hab hbc
    cases b with
    | nil => simp [keyLe] at hab
    | cons y ys =>
      cases c with
      | nil => simp [keyLe] at hbc
      | cons z zs =>
        simp only [keyLe] at hab hbc ⊢
        rcases Nat.lt_trichotomy x y with hxy | hxy | hxy
        · rcases Nat.lt_trichotomy y z with hyz | hyz | hyz
          · simp [hxy.trans hyz]
          · subst hyz; simp [hxy]
          · simp [hyz, lt_asymm hyz] at hbc
        · subst hxy
          rcases Nat.lt_trichotomy x z with hxz | hxz | hxz
          · simp [hxz]
          · subst hxz
            simp only [lt_irrefl, if_false] at hab hbc ⊢
            exact ih ys zs hab hbc
          · simp [hxz, lt_asymm hxz] at hbc
        · simp [hxy, lt_asymm hxy] at hab

theorem keyLe_total : ∀ (a b : List ℕ), keyLe a b || keyLe b a := by
  intro a
  induction a with
  | nil => intro b; simp [keyLe]
  | cons x xs ih =>
    intro b
    cases b with
    | nil => simp [keyLe]
    | cons y ys =>
      simp only [keyLe]
      rcases Nat.lt_trichotomy x y with h | h | h
      · simp [h]
      · subst h
        simp only [lt_irrefl, if_false]
        exact ih ys
      · simp [h, lt_asymm h]

theorem keyLe_refl (a : List ℕ) : keyLe a a = true := by
  induction a with
  | nil => rfl
  | cons x xs ih => simp only [keyLe, lt_irrefl, if_false]; exact ih

/-- JS default `Array.prototype.sort()` string comparison: code-unit lexical
order (this is also the "case-sensitive lexical string comparison" of the
spec). -/
def lexLe (a b : String) : Bool := keyLe (charCodes a) (charCodes b)

theorem keyLe_antisymm : ∀ {a b : List ℕ},
    keyLe a b = true → keyLe b a = true → a = b := by
  intro a
  induction a with
  | nil =>
    intro b _ hba
    cases b with
    | nil => rfl
    | cons y ys => simp [keyLe] at hba
  | cons x xs ih =>
    intro b hab hba
    cases b with
    | nil => simp [keyLe] at hab
    | cons y ys =>
      simp only [keyLe] at hab hba
      rcases Nat.lt_trichotomy x y with h | h | h
      · simp [h, lt_asymm h] at hba
      · subst h
        simp only [lt_irrefl, if_false] at hab hba
        rw [ih hab hba]
      · simp [h, lt_asymm h] at hab

/-! ### Stable sort

`Array.prototype.sort` is required by ES2019 to be stable; with a comparator
inducing a total preorder, the stable sorted permutation is unique, so any
stable sorting algorithm is an exact model.  We use insertion sort (inserting
each element after its equals), which is structurally recursive and therefore
evaluates on concrete inputs. -/

/-- Insert `x` after every element `y` with `le y x` (so after its equals:
stability). -/
def insertBy (le : α → α → Bool) (x : α) : List α → List α
  | [] => [x]
  | y :: ys => if le y x then y :: insertBy le x ys else x :: y :: ys

/-- Stable insertion sort with comparator `le`. -/
def sortBy (le : α → α → Bool) (l : List α) : List α :=
  l.foldl (fun acc x => insertBy le x acc) []

theorem insertBy_perm (le : α → α → Bool) (x : α) (l : List α) :
    List.Perm (insertBy le x l) (x :: l) := by
  induction l with
  | nil => exact List.Perm.refl _
  | cons y ys ih =>
    simp only [insertBy]
    by_cases h : le y x = true
    · rw [if_pos h]
      exact (List.Perm.cons y ih).trans (List.Perm.swap x y ys)
    · rw [if_neg h]

theorem foldl_insertBy_perm (le : α → α → Bool) :
    ∀ (l acc : List α),
      List.Perm (l.foldl (fun acc x => insertBy le x acc) acc) (acc ++ l) := by
  intro l
  induction l with
  | nil => intro acc; simp
  | cons x xs ih =>
    intro acc
    exact (ih (insertBy le x acc)).trans
      (((insertBy_perm le x acc).append_right xs).trans List.perm_middle.symm)

theorem sortBy_perm (le : α → α → Bool) (l : List α) :
    List.Perm (sortBy le l) l := by
  simpa using foldl_insertBy_perm le l []

theorem mem_sortBy {le : α → α → Bool} {l : List α} {x : α} :
    x ∈ sortBy le l ↔ x ∈ l :=
  (sortBy_perm le l).mem_iff

theorem insertBy_sorted {le : α → α → Bool}
    (trans : ∀ a b c, le a b = true → le b c = true → le a c = true)
    (total : ∀ a b, le a b || le b a) (x : α) :
    ∀ {l : List α}, l.Pairwise (fun a b => le a b = true) →
      (insertBy le x l).Pairwise (fun a b => le a b = true) := by
  intro l
  induction l with
  | nil => intro _; exact List.pairwise_singleton _ _
  | cons y ys ih =>
    intro h
    rcases List.pairwise_cons.mp h with ⟨hy, hys⟩
    simp only [insertBy]
    by_cases hle : le y x = true
    · rw [if_pos hle]
      refine List.pairwise_cons.mpr ⟨?_, ih hys⟩
      intro z hz
      rcases (insertBy_perm le x ys).mem_iff.mp hz with hz1
      rcases List.mem_cons.mp hz1 with rfl | hz2
      · exact hle
      · exact hy z hz2
    · rw [if_neg hle]
      have hxy : le x y = true := by
        rcases Bool.or_eq_true_iff.mp (total x y) with h1 | h1
        · exact h1
        · exact absurd h1 hle
      refine List.pairwise_cons.mpr ⟨?_, h⟩
      intro z hz
      rcases List.mem_cons.mp hz with rfl | hz2
      · exact hxy
      · exact trans x y z hxy (hy z hz2)

theorem sortBy_sorted {le : α → α → Bool}
    (trans : ∀ a b c, le a b = true → le b c = true → le a c = true)
    (total : ∀ a b, le a b || le b a) (l : List α) :
    (sortBy le l).Pairwise (fun a b => le a b = true) := by
  suffices h : ∀ (l acc : List α),
      acc.Pairwise (fun a b => le a b = true) →
      (l.foldl (fun acc x => insertBy le x acc) acc).Pairwise
        (fun a b => le a b = true) from
    h l [] (List.Pairwise.nil)
  intro l
  induction l with
  | nil => intro acc h; exact h
  | cons x xs ih =>
    intro acc h
    exact ih _ (insertBy_sorted trans total x h)

theorem insertBy_filter_neg {le : α → α → Bool} {p : α → Bool} {x : α}
    (hx : p x = false) (l : List α) :
    (insertBy le x l).filter p = l.filter p := by
  induction l with
  | nil => simp [insertBy, hx]
  | cons y ys ih =>
    simp only [insertBy]
    by_cases hle : le y x = true
    · rw [if_pos hle]
      simp only [List.filter_cons]
      rw [ih]
    · rw [if_neg hle]
      simp [List.filter_cons, hx]

theorem insertBy_filter_pos {le : α → α → Bool}
    (trans : ∀ a b c, le a b = true → le b c = true → le a c = true)
    {p : α → Bool}
    (hcls : ∀ a b, p a = true → p b = true → le a b = true)
    {x : α} (hx : p x = true) :
    ∀ {l : List α}, l.Pairwise (fun a b => le a b = true) →
      (insertBy le x l).filter p = l.filter p ++ [x] := by
  intro l
  induction l with
  | nil => simp [insertBy, hx]
  | cons y ys ih =>
    intro h
    rcases List.pairwise_cons.mp h with ⟨hy, hys⟩
    simp only [insertBy]
    by_cases hle : le y x = true
    · rw [if_pos hle]
      simp only [List.filter_cons]
      rw [ih hys]
      by_cases hpy : p y = true
      · simp [hpy]
      · simp [hpy]
    · rw [if_neg hle]
      have hnone : (y :: ys).filter p = [] := by
        rw [List.filter_eq_nil_iff]
        intro z hz hpz
        rcases List.mem_cons.mp hz with rfl | hz2
        · exact hle (hcls z x hpz hx)
        · exact hle (trans y z x (hy z hz2) (hcls z x hpz hx))
      rw [List.filter_cons_of_pos hx, hnone, List.nil_append]

theorem sortBy_filter_class {le : α → α → Bool}
    (trans : ∀ a b c, le a b = true → le b c = true → le a c = true)
    (total : ∀ a b, le a b || le b a)
    {p : α → Bool}
    (hcls : ∀ a b, p a = true → p b = true → le a b = true)
    (l : List α) :
    (sortBy le l).filter p = l.filter p := by
  suffices h : ∀ (l acc : List α),
      acc.Pairwise (fun a b => le a b = true) →
      (l.foldl (fun acc x => insertBy le x acc) acc).filter p =
        acc.filter p ++ l.filter p by
    simpa using h l [] List.Pairwise.nil
  intro l
  induction l with
  | nil => intro acc _; simp
  | cons x xs ih =>
    intro acc hacc
    have hstep : ((x :: xs).foldl (fun acc x => insertBy le x acc) acc) =
        xs.foldl (fun acc x => insertBy le x acc) (insertBy le x acc) := rfl
    rw [hstep, ih _ (insertBy_sorted trans total x hacc)]
    by_cases hpx : p x = true
    · rw [insertBy_filter_pos trans hcls hpx hacc,
        List.filter_cons_of_pos hpx, List.append_assoc, List.singleton_append]
    · rw [insertBy_filter_neg (Bool.eq_false_iff.mpr hpx),
        List.filter_cons_of_neg (by simpa using hpx)]

/-! ### Pivot Aggregator (`generateReport`, dataProcessor.ts lines 75-180) -/

/-- Grouping key for a row (`rowKey` selection in the forEach of
`generateReport`): item id for PRODUCT_LIST, district otherwise. -/
def rowKeyOf (type : ReportType) (r : ProcessedRow) : String :=
  if type = ReportType.PRODUCT_LIST then r.itemId else r.district

/-- Display label for a row: item description for PRODUCT_LIST, district
otherwise. -/
def rowLabelOf (type : ReportType) (r : ProcessedRow) : String :=
  if type = ReportType.PRODUCT_LIST then r.itemDesc else r.district

/-- Fresh `PivotData` entry as created when a row key is first seen. -/
def initPivot (k l : String) : PivotData :=
  { rowKey := k, rowLabel := l, total := 0, values := [] }

/-- State of the first aggregation pass: the `rowMap` and the
`processedNetDocs` set (the latter only consulted for NET_AMOUNT). -/
structure Agg1 where
  rowMap : List (String × PivotData)
  netDocs : List String

/-- One iteration of the first `filteredRows.forEach` of `generateReport`:
ensure the row-key entry exists, then accumulate according to the report
kind (nothing for ORDER_COUNT — handled in the second pass — or
CLIENT_SEARCH). -/
def step1 (type : ReportType) (st : Agg1) (row : ProcessedRow) : Agg1 :=
  let rowKey := rowKeyOf type row
  let rowLabel := rowLabelOf type row
  let m0 := if (alGet st.rowMap rowKey).isSome then st.rowMap
            else st.rowMap ++ [(rowKey, initPivot rowKey rowLabel)]
  match type with
  | ReportType.NET_AMOUNT =>
    if row.docId ∈ st.netDocs then { rowMap := m0, netDocs := st.netDocs }
    else
      let netVal := jsDivTax row.totalAmount
      { rowMap := alModify m0 rowKey (fun e =>
          { e with
            values := alSet e.values row.salesRep
              (jsOrZero (alGet e.values row.salesRep) + netVal),
            total := e.total + netVal }),
        netDocs := setAdd st.netDocs row.docId }
  | ReportType.PRODUCT_LIST =>
      { rowMap := alModify m0 rowKey (fun e =>
          { e with
            values := alSet e.values row.salesRep
              (jsOrZero (alGet e.values row.salesRep) + row.quantity),
            total := e.total + row.quantity }),
        netDocs := st.netDocs }
  | _ => { rowMap := m0, netDocs := st.netDocs }

/-- One row's update of a per-district object in the ORDER_COUNT second
pass: ensure the rep's doc set exists, add the doc id to it, then add the
doc id to the `"_total"` row set.  When the rep is literally named
`"_total"`, both updates hit the sentinel set. -/
def updCols (cols : List (String × List String)) (rep d : String) :
    List (String × List String) :=
  let cols1 := if (alGet cols rep).isSome then cols
               else cols ++ [(rep, ([] : List String))]
  let cols2 := alModify cols1 rep (fun s => setAdd s d)
  alModify cols2 "_total" (fun s => setAdd s d)

/-- Per-district state of the ORDER_COUNT second pass: a JS object mapping
each sales-rep name to its set of document ids, plus the sentinel key
`"_total"` holding the row-total set (created first). -/
def step2 (dm : List (String × List (String × List String)))
    (row : ProcessedRow) : List (String × List (String × List String)) :=
  let rowKey := row.district
  let dm0 := if (alGet dm rowKey).isSome then dm
             else dm ++ [(rowKey, [("_total", ([] : List String))])]
  alModify dm0 rowKey (fun cols => updCols cols row.salesRep row.docId)

/-- Conversion of the ORDER_COUNT distinct-doc sets to numbers (the
`distinctMap.forEach` at lines 152-166): the `"_total"` key becomes the row
total and is excluded from `values`. -/
def convert2 (dm : List (String × List (String × List String))) :
    List (String × PivotData) :=
  dm.map (fun kc =>
    (kc.1,
      { rowKey := kc.1, rowLabel := kc.1,
        total := JsNum.num (((alGet kc.2 "_total").getD []).length : ℚ),
        values := (kc.2.filter (fun sc => sc.1 ≠ "_total")).map
          (fun sc => (sc.1, JsNum.num (sc.2.length : ℚ))) }))

/-- The aggregated entries from the already-filtered rows, in map insertion
order, before sorting.  For ORDER_COUNT the first pass's `rowMap` is
discarded (`rowMap.clear()`) and rebuilt from the distinct-doc sets; the
discarded pass is elided here. -/
def aggEntriesOf (filteredRows : List ProcessedRow) (type : ReportType) :
    List PivotData :=
  if type = ReportType.ORDER_COUNT then
    (convert2 (filteredRows.foldl step2 [])).map (·.2)
  else
    ((filteredRows.foldl (step1 type) { rowMap := [], netDocs := [] }).rowMap).map (·.2)

/-- The aggregated entries of `generateReport rows type` before sorting. -/
def aggEntries (rows : List ProcessedRow) (type : ReportType) : List PivotData :=
  aggEntriesOf (filterRows rows) type

/-- Body of `generateReport` given the filtered working set.  `columns` is
`Array.from(new Set(map salesRep)).sort()` (JS default string sort =
code-unit lexical order); `data` is the entry list sorted stably by
`localeCompare` on labels (ES2019 `Array.prototype.sort` is stable, modelled
by the stable `sortBy`); `grandTotal` accumulates the row totals. -/
def generateReportCore (filteredRows : List ProcessedRow) (type : ReportType) :
    ReportResult :=
  let salesReps := sortBy (fun a b => lexLe a b)
    (dedupFirst (filteredRows.map (·.salesRep)))
  let data := sortBy (fun a b => localeLe a.rowLabel b.rowLabel)
    (aggEntriesOf filteredRows type)
  let grandTotal := data.foldl (fun acc p => acc + p.total) 0
  { columns := salesReps, data := data, grandTotal := grandTotal }

/-- The module-scope bindings `generateReport` reads: the two filter
constants.  They are `const` and nothing in the module ever rebinds or
mutates them; there is no other module-level state in dataProcessor.ts. -/
structure AppState where
  excludedStatus : String
  allowedGroups : List String
deriving DecidableEq, Repr

def moduleConstants : AppState :=
  { excludedStatus := EXCLUDED_STATUS, allowedGroups := ALLOWED_GROUPS }

/-- `generateReport` evaluated against explicit module state. -/
def generateReportWith (s : AppState) (rows : List ProcessedRow)
    (type : ReportType) : ReportResult :=
  generateReportCore (filterRowsWith s.excludedStatus s.allowedGroups rows) type

/-- `generateReport` from dataProcessor.ts. -/
def generateReport (rows : List ProcessedRow) (type : ReportType) : ReportResult :=
  generateReportWith moduleConstants rows type

/-- One invocation of `generateReport` as a transition on the module state,
also returning the caller's row array as left by the call: the source only
reads `rows` (`filter`, `map`, `forEach`) and only reads the constants, so
the invocation returns both unchanged. -/
def generateReportSt (s : AppState) (rows : List ProcessedRow)
    (type : ReportType) : ReportResult × List ProcessedRow × AppState :=
  (generateReportWith s rows type, rows, s)

/-- Module state left after a sequence of prior `generateReport` calls. -/
def callSeq (s : AppState) : List (List ProcessedRow × ReportType) → AppState
  | [] => s
  | c :: rest => callSeq (generateReportSt s c.1 c.2).2.2 rest

/-! ### Row Normalizer (`processRawData`, dataProcessor.ts lines 14-39)

A raw spreadsheet record (the output of `sheet_to_json`) is an object mapping
header names to cell values; cells are strings or numbers.  `String(v)` and
`Number(v)` coercions are modelled explicitly; `Number` of a non-numeric
string is NaN.  Case folding and trimming of header names are modelled over
the ASCII range, which is what the JS builtins do on the headers the alias
lists target. -/

inductive CellValue where
  | vStr (s : String)
  | vNum (q : ℚ)
deriving DecidableEq, Repr

/-- A raw record: header/value pairs in object-key insertion order. -/
abbrev RawRecord := List (String × CellValue)

/-- Does a record key match any of the acceptable aliases
(`k.toLowerCase().trim() === pk.toLowerCase()`)? -/
def keyMatches (k : String) (possibleKeys : List String) : Bool :=
  possibleKeys.any (fun pk => jsTrim (jsToLower k) == jsToLower pk)

/-- `getVal` from `processRawData`: the value of the first record key that
matches an alias, else the default. -/
def getVal (row : RawRecord) (possibleKeys : List String) (dflt : CellValue) :
    CellValue :=
  match row.find? (fun kv => keyMatches kv.1 possibleKeys) with
  | some kv => kv.2
  | none => dflt

/-- Digit-string scanner: consumes leading digits, returning accumulated
value, count of digits consumed, and the rest. -/
def readDigits : List Char → ℕ → ℕ → (ℕ × ℕ × List Char)
  | [], v, c => (v, c, [])
  | ch :: rest, v, c =>
    if ch.isDigit then readDigits rest (v * 10 + (ch.toNat - 48)) (c + 1)
    else (v, c, ch :: rest)

/-- Parse of a simple decimal literal (optional sign, digits, optional
fractional part), the grammar JS `Number(string)` accepts for the inputs this
system sees.  Exponent, hex/octal/binary and `Infinity` forms are not
modelled (no claim exercises them); anything else is non-numeric. -/
def parseDec (cs : List Char) : Option ℚ :=
  let sgnRest : ℚ × List Char :=
    match cs with
    | '-' :: r => (-1, r)
    | '+' :: r => (1, r)
    | _ => (1, cs)
  let ipRest := readDigits sgnRest.2 0 0
  match ipRest.2.2 with
  | [] => if ipRest.2.1 = 0 then none else some (sgnRest.1 * ipRest.1)
  | '.' :: cs3 =>
    let fpRest := readDigits cs3 0 0
    if fpRest.2.2 = [] ∧ ipRest.2.1 + fpRest.2.1 ≠ 0 then
      some (sgnRest.1 * ((ipRest.1 : ℚ) + (fpRest.1 : ℚ) / (10 ^ fpRest.2.1)))
    else none
  | _ => none

/-- JS `Number(string)`: whitespace-trimmed; empty string is `0`; otherwise a
decimal literal or NaN. -/
def jsParseNumber (s : String) : JsNum :=
  let t := jsTrim s
  if t = "" then JsNum.num 0
  else
    match parseDec t.toList with
    | some q => JsNum.num q
    | none => JsNum.nan

/-- JS `Number(v)` on a cell value. -/
def jsNumberOfCell : CellValue → JsNum
  | CellValue.vNum q => JsNum.num q
  | CellValue.vStr s => jsParseNumber s

/-- JS `String(v)` on a cell value.  Integral numbers render as decimal
integers, matching JS; the rendering of non-integral numbers is an
approximation (no claim depends on it). -/
def jsStringOfCell : CellValue → String
  | CellValue.vStr s => s
  | CellValue.vNum q => if q.den = 1 then toString q.num else toString q

def docIdAliases : List String :=
  ["Número de documento", "Numero de documento", "DocNum"]
def statusAliases : List String := ["Estado", "Status"]
def groupAliases : List String := ["Nombre de Grupo", "Grupo"]
def districtAliases : List String := ["Condado", "Distrito", "District"]
def salesRepAliases : List String :=
  ["Nombre de empleado del departamento de ventas", "Empleado", "Vendedor", "Sales Rep"]
def totalAliases : List String := ["Total del documento", "Total Documento", "Total"]
def itemIdAliases : List String :=
  ["Número de artículo", "Numero de articulo", "Item No", "Articulo"]
def itemDescAliases : List String :=
  ["Descripción artículo/serv.", "Descripcion", "Description"]
def quantityAliases : List String := ["Cantidad", "Qty", "Unidades"]
def clientAliases : List String :=
  ["Nombre de cliente/proveedor", "Nombre de cliente", "CardName", "Cliente"]
def destinationAliases : List String :=
  ["Destino", "ShipToCode", "Dirección de destino", "Direccion"]

/-- Normalization of a single raw record into a `ProcessedRow`. -/
def processOneRow (row : RawRecord) : ProcessedRow :=
  { docId := jsStringOfCell (getVal row docIdAliases (CellValue.vStr "")),
    status := jsStringOfCell (getVal row statusAliases (CellValue.vStr "")),
    groupName := jsStringOfCell (getVal row groupAliases (CellValue.vStr "")),
    district := jsStringOfCell (getVal row districtAliases (CellValue.vStr "Sin Condado")),
    salesRep := jsStringOfCell (getVal row salesRepAliases (CellValue.vStr "Desconocido")),
    totalAmount := jsNumberOfCell (getVal row totalAliases (CellValue.vNum 0)),
    itemId := jsStringOfCell (getVal row itemIdAliases (CellValue.vStr "")),
    itemDesc := jsStringOfCell (getVal row itemDescAliases (CellValue.vStr "")),
    quantity := jsNumberOfCell (getVal row quantityAliases (CellValue.vNum 1)),
    clientName := jsStringOfCell (getVal row clientAliases (CellValue.vStr "Cliente Desconocido")),
    destination := jsStringOfCell (getVal row destinationAliases (CellValue.vStr "")) }

/-- `processRawData`: one `ProcessedRow` per raw record, in order. -/
def processRawData (data : List RawRecord) : List ProcessedRow :=
  data.map processOneRow

/-! ### Report Serializer (`exportReportToExcel`, dataProcessor.ts 182-271)

The observable content of the export is the `wsData` matrix of cells (the
XLSX writing itself is I/O).  `row.values[col] || 0` makes a missing —
or NaN, NaN being falsy — cell export as `0`. -/

inductive Cell where
  | cs (s : String)
  | cn (v : JsNum)
deriving DecidableEq, Repr

/-- The `wsData` matrix built by `exportReportToExcel` for a report. -/
def exportWsData (report : ReportResult) (type : ReportType) : List (List Cell) :=
  let isProductList := type = ReportType.PRODUCT_LIST
  let superHeaderRow : List Cell :=
    if isProductList then
      [Cell.cs "LISTA DE PRODUCTOS", Cell.cs "", Cell.cs "",
       Cell.cs "Nombre de empleado del departamento de ventas"]
    else
      [Cell.cs (if type = ReportType.ORDER_COUNT then "CANTIDAD DE PEDIDOS"
                else "MONTOS NETOS"),
       Cell.cs "CANAL / MAYORISTAS"]
  let headerRow : List Cell :=
    if isProductList then
      [Cell.cs "Número de artículo", Cell.cs "Descripción artículo/serv.",
       Cell.cs "Total general"] ++ report.columns.map Cell.cs
    else
      [Cell.cs "DISTRITO"] ++ report.columns.map Cell.cs ++ [Cell.cs "Total general"]
  let dataRows : List (List Cell) := report.data.map (fun row =>
    if isProductList then
      [Cell.cs row.rowKey, Cell.cs row.rowLabel, Cell.cn row.total] ++
        report.columns.map (fun col => Cell.cn (jsOrZero (alGet row.values col)))
    else
      [Cell.cs row.rowLabel] ++
        report.columns.map (fun col => Cell.cn (jsOrZero (alGet row.values col))) ++
        [Cell.cn row.total])
  let colTotal : String → JsNum := fun col =>
    (report.data.map (fun r => jsOrZero (alGet r.values col))).sum
  let footerRow : List Cell :=
    if isProductList then
      [Cell.cs "TOTALES", Cell.cs "", Cell.cn report.grandTotal] ++
        report.columns.map (fun col => Cell.cn (colTotal col))
    else
      [Cell.cs "TOTALES"] ++
        report.columns.map (fun col => Cell.cn (colTotal col)) ++
        [Cell.cn report.grandTotal]
  [superHeaderRow, headerRow] ++ dataRows ++ [footerRow]

/-! ### Upload handler (`handleFileUpload` in App.tsx)

`parseExcel` resolves with the processed rows or rejects when the workbook
cannot be decoded; the outcome is modelled as `Except`.  The handler throws a
dedicated error when the decoded row set is empty, but its `catch` displays
the same generic message for every failure. -/

structure UiState where
  rawData : Option (List ProcessedRow)
  error : Option String
  loading : Bool
deriving DecidableEq, Repr

/-- Message of the error thrown for an empty decoded dataset. -/
def emptyDatasetMsg : String := "El archivo no contiene datos válidos o está vacío."

/-- Message displayed by the catch-all for any failed upload. -/
def genericUploadErrorMsg : String :=
  "Error al procesar el archivo. Asegúrate de que es un Excel válido (.xlsx)."

/-- The try-block of `handleFileUpload`: rethrow a decode failure, raise
`emptyDatasetMsg` when decoding succeeded with zero rows. -/
def uploadAttempt (outcome : Except String (List ProcessedRow)) :
    Except String (List ProcessedRow) :=
  match outcome with
  | Except.error e => Except.error e
  | Except.ok data => if data.length = 0 then Except.error emptyDatasetMsg
                      else Except.ok data

/-- `handleFileUpload`: state transition of the UI shell for one upload,
given the decode outcome.  Every raised error — parse failure or empty
dataset alike — is caught and surfaced as `genericUploadErrorMsg`; `rawData`
is only replaced on success. -/
def handleFileUpload (prev : UiState) (outcome : Except String (List ProcessedRow)) :
    UiState :=
  match uploadAttempt outcome with
  | Except.error _ =>
    { rawData := prev.rawData, error := some genericUploadErrorMsg, loading := false }
  | Except.ok data =>
    { rawData := some data, error := none, loading := false }

/-! ### Spec-side definitions (worded after spec.md, for comparison with the
embedded source) -/

/-- The allow-list exactly as the spec words it (§4.2). -/
def specAllowList : List String :=
  ["MAYORISTAS B", "MAYORISTAS C", "MAYORISTAS D", "MAYORISTAS E"]

/-- The row-keep predicate exactly as claim C5 words it: status does not
contain the substring "Cerrado", and groupName is one of the allow-list,
case-sensitively. -/
def specKeepRow (row : ProcessedRow) : Bool :=
  !(occursIn "Cerrado".toList row.status.toList) &&
    specAllowList.contains row.groupName

theorem specKeepRow_iff (row : ProcessedRow) :
    specKeepRow row = true ↔
      ¬ ContainsSubstr "Cerrado" row.status ∧ row.groupName ∈ specAllowList := by
  simp only [specKeepRow, Bool.and_eq_true, Bool.not_eq_true']
  constructor
  · rintro ⟨h1, h2⟩
    refine ⟨fun hc => ?_, List.elem_iff.mp h2⟩
    rw [(occursIn_iff).mpr hc] at h1
    cases h1
  · rintro ⟨h1, h2⟩
    refine ⟨?_, List.elem_iff.mpr h2⟩
    cases hoc : occursIn "Cerrado".toList row.status.toList with
    | false => rfl
    | true => exact absurd (occursIn_iff.mp hoc) h1

/-- C5: the Row Filter returns the stable-order subsequence of rows kept iff
both predicates hold: the status does not contain the substring "Cerrado"
(so "Cerrado Parcial" is excluded), and the groupName is exactly one of the
four-element MAYORISTAS B/C/D/E allow-list under case-sensitive comparison
(so "MAYORISTAS A" is excluded and "MAYORISTAS B" retained). -/
theorem c5_row_filter (rows : List ProcessedRow) :
    filterRows rows = rows.filter specKeepRow ∧
    List.Sublist (filterRows rows) rows ∧
    (∀ row : ProcessedRow, specKeepRow row = true ↔
      ¬ ContainsSubstr "Cerrado" row.status ∧ row.groupName ∈ specAllowList) ∧
    ContainsSubstr "Cerrado" "Cerrado Parcial" ∧
    "MAYORISTAS A" ∉ specAllowList ∧
    "MAYORISTAS B" ∈ specAllowList := by
  have hpt : ∀ row : ProcessedRow,
      (!(jsIncludes row.status EXCLUDED_STATUS) &&
        ALLOWED_GROUPS.contains row.groupName) = specKeepRow row := by
    intro row
    rfl
  have hfe : filterRows rows = rows.filter specKeepRow := by
    unfold filterRows filterRowsWith
    exact List.filter_congr (fun x _ => hpt x)
  refine ⟨hfe, ?_, specKeepRow_iff, ?_, by decide, by decide⟩
  · rw [hfe]; exact List.filter_sublist rows
  · exact ⟨[], " Parcial".toList, by decide⟩

/-! ### C7: purity of the aggregator -/

theorem callSeq_const (l : List (List ProcessedRow × ReportType)) (s : AppState) :
    callSeq s l = s := by
  induction l with
  | nil => rfl
  | cons c rest ih => exact ih

/-- C7: `generateReport` owns no process-wide state: after any sequence of
prior invocations the module state is still the initial constants, a further
invocation returns exactly what a fresh invocation on equal inputs returns
(determinism across repeated calls), and the invocation leaves its input row
array and the module state unchanged. -/
theorem c7_generate_report_pure (prior : List (List ProcessedRow × ReportType))
    (rows : List ProcessedRow) (type : ReportType) :
    callSeq moduleConstants prior = moduleConstants ∧
    (generateReportSt (callSeq moduleConstants prior) rows type).1 =
      generateReport rows type ∧
    (generateReportSt (callSeq moduleConstants prior) rows type).2.1 = rows ∧
    (generateReportSt (callSeq moduleConstants prior) rows type).2.2 =
      callSeq moduleConstants prior := by
  have h := callSeq_const prior moduleConstants
  refine ⟨h, ?_, rfl, rfl⟩
  rw [h]
  rfl

/-! ### C9: empty dataset vs parse failure -/

/-- C9 (code bug): decoding succeeding with zero rows raises a dedicated
error (`emptyDatasetMsg`) distinct from a parse failure, but the handler's
catch-all surfaces the SAME generic message for both, so the user cannot
tell a readable-but-empty file from an unreadable one — the resulting UI
states are identical.  (No partial data is retained in either case.) -/
theorem c9_empty_vs_parse_same_surface :
    uploadAttempt (Except.ok ([] : List ProcessedRow)) =
      Except.error emptyDatasetMsg ∧
    emptyDatasetMsg ≠ genericUploadErrorMsg ∧
    (handleFileUpload ⟨none, none, false⟩ (Except.ok [])).error =
      some genericUploadErrorMsg ∧
    (handleFileUpload ⟨none, none, false⟩
        (Except.error "corrupt container")).error =
      some genericUploadErrorMsg ∧
    handleFileUpload ⟨none, none, false⟩ (Except.ok []) =
      handleFileUpload ⟨none, none, false⟩ (Except.error "corrupt container") ∧
    (handleFileUpload ⟨none, none, false⟩ (Except.ok [])).rawData = none := by
  refine ⟨rfl, by decide, rfl, rfl, rfl, rfl⟩

/-! ### C6: Normalizer defaults and numeric coercion -/

/-- C6 counterexample: a record whose `"Total"` header matches the
total-amount alias but holds the non-numeric string `"abc"` is coerced by
`Number()` to NaN — not to `0` and not to the field's default `0` as the
claim states.  (The same record, lacking any district alias, does get the
documented district default.) -/
theorem c6_counterexample :
    (processRawData [[("Total", CellValue.vStr "abc")]]).map (·.totalAmount) =
      [JsNum.nan] ∧
    JsNum.nan ≠ JsNum.num 0 ∧
    getVal [("Total", CellValue.vStr "abc")] totalAliases (CellValue.vNum 0) =
      CellValue.vStr "abc" ∧
    (processRawData [[("Total", CellValue.vStr "abc")]]).map (·.district) =
      ["Sin Condado"] := by
  refine ⟨by decide, by decide, by decide, by decide⟩

/-- C6 amended: the Normalizer produces one `ProcessedRow` per record; when
no header alias matches any record key the field's documented default is used
(in particular district = "Sin Condado"); but a numeric field whose MATCHED
cell value is a non-numeric string coerces to NaN — the default applies only
when no alias matches, and only the empty/whitespace string coerces to 0. -/
theorem c6_normalizer_amended (rec : RawRecord) :
    (rec.find? (fun p => keyMatches p.1 districtAliases) = none →
      (processOneRow rec).district = "Sin Condado") ∧
    (rec.find? (fun p => keyMatches p.1 totalAliases) = none →
      (processOneRow rec).totalAmount = JsNum.num 0) ∧
    (∀ p : String × CellValue,
      rec.find? (fun q => keyMatches q.1 totalAliases) = some p →
      (processOneRow rec).totalAmount = jsNumberOfCell p.2) ∧
    jsNumberOfCell (CellValue.vStr "abc") = JsNum.nan ∧
    jsNumberOfCell (CellValue.vStr "  ") = JsNum.num 0 ∧
    (∀ recs : List RawRecord, (processRawData recs).length = recs.length) := by
  refine ⟨?_, ?_, ?_, by decide, by decide, fun recs => List.length_map _ _⟩
  · intro h
    simp [processOneRow, getVal, h, jsStringOfCell]
  · intro h
    simp [processOneRow, getVal, h, jsNumberOfCell]
  · intro p h
    simp [processOneRow, getVal, h]

/-- C6 witness: the amended theorem applied at the concrete record
`{"Total": "abc"}`. -/
theorem c6_normalizer_amended_witness :
    (processOneRow [("Total", CellValue.vStr "abc")]).district = "Sin Condado" ∧
    (processOneRow [("Total", CellValue.vStr "abc")]).totalAmount =
      jsNumberOfCell (CellValue.vStr "abc") ∧
    (processRawData [[("Total", CellValue.vStr "abc")]]).length = 1 :=
  ⟨(c6_normalizer_amended [("Total", CellValue.vStr "abc")]).1 (by decide),
   (c6_normalizer_amended [("Total", CellValue.vStr "abc")]).2.2.1
     ("Total", CellValue.vStr "abc") (by decide),
   (c6_normalizer_amended [("Total", CellValue.vStr "abc")]).2.2.2.2.2
     [[("Total", CellValue.vStr "abc")]]⟩

/-! ### C8: export layout for ORDER_COUNT / NET_AMOUNT -/

/-- The worksheet matrix exactly as claim C8 words it for ORDER_COUNT and
NET_AMOUNT: data cells are the stored cell values with only MISSING cells
defaulted to 0, and footer per-column sums are recomputed as the sum of the
stored values across all rows. -/
def claimWsDataC8 (report : ReportResult) (type : ReportType) : List (List Cell) :=
  [[Cell.cs (if type = ReportType.ORDER_COUNT then "CANTIDAD DE PEDIDOS"
             else "MONTOS NETOS"),
    Cell.cs "CANAL / MAYORISTAS"],
   [Cell.cs "DISTRITO"] ++ report.columns.map Cell.cs ++ [Cell.cs "Total general"]] ++
  report.data.map (fun row =>
    [Cell.cs row.rowLabel] ++
      report.columns.map (fun col =>
        Cell.cn ((alGet row.values col).getD (JsNum.num 0))) ++
      [Cell.cn row.total]) ++
  [[Cell.cs "TOTALES"] ++
    report.columns.map (fun col =>
      Cell.cn ((report.data.map
        (fun r => (alGet r.values col).getD (JsNum.num 0))).sum)) ++
    [Cell.cn report.grandTotal]]

/-- A report carrying a NaN cell value (reachable: NET_AMOUNT aggregation of
a row whose `totalAmount` coerced to NaN). -/
def c8CexReport : ReportResult :=
  { columns := ["Juan"],
    data := [{ rowKey := "Lima", rowLabel := "Lima", total := JsNum.nan,
               values := [("Juan", JsNum.nan)] }],
    grandTotal := JsNum.nan }

/-- C8 counterexample: on a report with a NaN cell value the export emits 0
for that cell (`row.values[col] || 0` — NaN is falsy), while the claim's
layout (cell values, only missing cells defaulted to 0) requires the stored
NaN; the footer column sum likewise differs.  So the claimed layout is not
what the code produces. -/
theorem c8_counterexample :
    exportWsData c8CexReport ReportType.ORDER_COUNT ≠
      claimWsDataC8 c8CexReport ReportType.ORDER_COUNT ∧
    (exportWsData c8CexReport ReportType.ORDER_COUNT).get? 2 =
      some [Cell.cs "Lima", Cell.cn (JsNum.num 0), Cell.cn JsNum.nan] ∧
    (claimWsDataC8 c8CexReport ReportType.ORDER_COUNT).get? 2 =
      some [Cell.cs "Lima", Cell.cn JsNum.nan, Cell.cn JsNum.nan] := by
  refine ⟨by decide, by decide, by decide⟩

/-- C8 amended: for ORDER_COUNT and NET_AMOUNT the sheet's second header row
is `["DISTRITO", ...reps, "Total general"]`; each data row is
`[rowLabel, ...cells, total]` where a missing or NaN cell is emitted as 0
(never blank/null); the footer is `["TOTALES", ...per-column sums,
grandTotal]` with each per-column sum recomputed from `report.data` as the
sum of that rep's values across all rows, a missing or NaN value summed as
0 — not taken from any cached total. -/
theorem c8_export_amended (report : ReportResult) (type : ReportType)
    (h : type = ReportType.ORDER_COUNT ∨ type = ReportType.NET_AMOUNT) :
    exportWsData report type =
      [[Cell.cs (if type = ReportType.ORDER_COUNT then "CANTIDAD DE PEDIDOS"
                 else "MONTOS NETOS"),
        Cell.cs "CANAL / MAYORISTAS"],
       [Cell.cs "DISTRITO"] ++ report.columns.map Cell.cs ++
         [Cell.cs "Total general"]] ++
      report.data.map (fun row =>
        [Cell.cs row.rowLabel] ++
          report.columns.map (fun col =>
            Cell.cn (jsOrZero (alGet row.values col))) ++
          [Cell.cn row.total]) ++
      [[Cell.cs "TOTALES"] ++
        report.columns.map (fun col =>
          Cell.cn ((report.data.map
            (fun r => jsOrZero (alGet r.values col))).sum)) ++
        [Cell.cn report.grandTotal]] := by
  rcases h with rfl | rfl <;> rfl

/-- A small concrete report for the C8 witness. -/
def c8WitnessReport : ReportResult :=
  { columns := ["Ana"],
    data := [{ rowKey := "Lima", rowLabel := "Lima", total := JsNum.num 2,
               values := [("Ana", JsNum.num 2)] }],
    grandTotal := JsNum.num 2 }

/-- C8 witness: the amended theorem applied at a concrete report and kind. -/
theorem c8_export_amended_witness :
    exportWsData c8WitnessReport ReportType.ORDER_COUNT =
      [[Cell.cs "CANTIDAD DE PEDIDOS", Cell.cs "CANAL / MAYORISTAS"],
       [Cell.cs "DISTRITO", Cell.cs "Ana", Cell.cs "Total general"],
       [Cell.cs "Lima", Cell.cn (JsNum.num 2), Cell.cn (JsNum.num 2)],
       [Cell.cs "TOTALES", Cell.cn (JsNum.num 2), Cell.cn (JsNum.num 2)]] :=
  (c8_export_amended c8WitnessReport ReportType.ORDER_COUNT (Or.inl rfl)).trans
    (by simp [c8WitnessReport, alGet, jsOrZero])

/-! ### C3: ordering of report rows -/

theorem localeLe_trans (a b c : String) :
    localeLe a b = true → localeLe b c = true → localeLe a c = true :=
  keyLe_trans (localeKey a) (localeKey b) (localeKey c)

theorem localeLe_total (a b : String) : localeLe a b || localeLe b a :=
  keyLe_total (localeKey a) (localeKey b)

theorem localeLe_refl (a : String) : localeLe a a = true :=
  keyLe_refl (localeKey a)

/-- A shared row constructor for the concrete test inputs. -/
def mkTestRow (doc dist rep grp : String) (amt : ℚ) : ProcessedRow :=
  { docId := doc, status := "", groupName := grp, district := dist,
    salesRep := rep, totalAmount := JsNum.num amt, itemId := "", itemDesc := "",
    quantity := JsNum.num 1, clientName := "", destination := "" }

def c3CexRows : List ProcessedRow :=
  [mkTestRow "1" "a" "R1" "MAYORISTAS B" 10,
   mkTestRow "2" "B" "R2" "MAYORISTAS B" 10]

/-- C3 counterexample: with district labels "a" and "B" the report rows come
out in the order ["a", "B"] — `localeCompare` (root collation) puts "a"
before "B" — whereas case-sensitive lexical (code-unit) comparison orders
"B" strictly before "a", so the output violates the claimed ordering. -/
theorem c3_counterexample :
    ((generateReport c3CexRows ReportType.ORDER_COUNT).data.map (·.rowLabel)) =
      ["a", "B"] ∧
    ¬ ((generateReport c3CexRows ReportType.ORDER_COUNT).data.Pairwise
        (fun p q => lexLe p.rowLabel q.rowLabel = true)) ∧
    lexLe "B" "a" = true ∧ lexLe "a" "B" = false := by
  refine ⟨by decide, by decide, by decide, by decide⟩

/-- C3 amended: for every input and report kind, `ReportResult.data` is
ordered by ascending `rowLabel` under the default-locale `localeCompare`
collation (for ASCII: case-insensitive primary comparison, lowercase before
uppercase on otherwise-equal strings) — not under case-sensitive lexical
comparison — with ties between equal labels broken by insertion order (the
sort is stable: for each label, the rows carrying it appear exactly as in
the unsorted aggregation-entry list). -/
theorem c3_sort_amended (rows : List ProcessedRow) (type : ReportType) :
    ((generateReport rows type).data.Pairwise
      (fun p q => localeLe p.rowLabel q.rowLabel = true)) ∧
    (∀ l : String,
      (generateReport rows type).data.filter (fun p => p.rowLabel == l) =
        (aggEntries rows type).filter (fun p => p.rowLabel == l)) := by
  constructor
  · exact sortBy_sorted
      (fun a b c => localeLe_trans a.rowLabel b.rowLabel c.rowLabel)
      (fun a b => localeLe_total a.rowLabel b.rowLabel) _
  · intro l
    exact sortBy_filter_class
      (fun a b c => localeLe_trans a.rowLabel b.rowLabel c.rowLabel)
      (fun a b => localeLe_total a.rowLabel b.rowLabel)
      (fun a b ha hb => by
        have ha2 : a.rowLabel = l := by simpa using ha
        have hb2 : b.rowLabel = l := by simpa using hb
        rw [ha2, hb2]
        exact localeLe_refl l) _

/-! ### C4: column completeness -/

theorem lexLe_trans (a b c : String) :
    lexLe a b = true → lexLe b c = true → lexLe a c = true :=
  keyLe_trans (charCodes a) (charCodes b) (charCodes c)

theorem lexLe_total (a b : String) : lexLe a b || lexLe b a :=
  keyLe_total (charCodes a) (charCodes b)

theorem alGet_isSome_iff {m : List (String × α)} {k : String} :
    (alGet m k).isSome ↔ k ∈ keysOf m := by
  induction m with
  | nil => simp [alGet_nil, keysOf]
  | cons kv rest ih =>
    rw [alGet_cons]
    by_cases h : kv.1 = k
    · simp [h, keysOf]
    · rw [if_neg h]
      simp only [keysOf, List.map_cons, List.mem_cons]
      rw [ih]
      constructor
      · intro h1; exact Or.inr h1
      · rintro (h1 | h1)
        · exact absurd h1.symm h
        · exact h1

theorem alGet_alSet_self (m : List (String × α)) (k : String) (v : α) :
    alGet (alSet m k v) k = some v := by
  induction m with
  | nil => simp [alSet, alGet_cons]
  | cons kv rest ih =>
    simp only [alSet]
    by_cases h : kv.1 = k
    · rw [if_pos h, alGet_cons, if_pos rfl]
    · rw [if_neg h, alGet_cons, if_neg h]
      exact ih

theorem alGet_alSet_ne (m : List (String × α)) (k s : String) (v : α)
    (h : s ≠ k) : alGet (alSet m k v) s = alGet m s := by
  induction m with
  | nil =>
    simp only [alSet]
    rw [alGet_cons, if_neg (fun he => h he.symm)]
  | cons kv rest ih =>
    simp only [alSet]
    by_cases hk : kv.1 = k
    · rw [if_pos hk, alGet_cons, alGet_cons]
      rw [if_neg (fun he : k = s => h he.symm), if_neg (hk ▸ (fun he : kv.1 = s => h (hk ▸ he).symm))]
    · rw [if_neg hk, alGet_cons, alGet_cons]
      by_cases hs : kv.1 = s
      · rw [if_pos hs, if_pos hs]
      · rw [if_neg hs, if_neg hs]
        exact ih

theorem alGet_alSet_isSome {m : List (String × α)} {k s : String} {v : α} :
    (alGet (alSet m k v) s).isSome → s = k ∨ (alGet m s).isSome := by
  intro h
  by_cases hs : s = k
  · exact Or.inl hs
  · rw [alGet_alSet_ne m k s v hs] at h
    exact Or.inr h

/-- Any sales-rep key present in any `values` object after one `step1`
iteration was present before or is the processed row's rep. -/
theorem step1_values_keys (type : ReportType) (st : Agg1) (r : ProcessedRow) :
    ∀ kp ∈ (step1 type st r).rowMap, ∀ s : String,
      (alGet kp.2.values s).isSome →
      (∃ kp0 ∈ st.rowMap, (alGet kp0.2.values s).isSome) ∨ s = r.salesRep := by
  have hm0 : ∀ kp ∈ (if (alGet st.rowMap (rowKeyOf type r)).isSome then st.rowMap
      else st.rowMap ++ [(rowKeyOf type r,
        initPivot (rowKeyOf type r) (rowLabelOf type r))]),
      ∀ s : String, (alGet kp.2.values s).isSome →
        (∃ kp0 ∈ st.rowMap, (alGet kp0.2.values s).isSome) := by
    by_cases h : (alGet st.rowMap (rowKeyOf type r)).isSome
    · rw [if_pos h]
      intro kp hkp s hs
      exact ⟨kp, hkp, hs⟩
    · rw [if_neg h]
      intro kp hkp s hs
      rcases List.mem_append.mp hkp with h1 | h1
      · exact ⟨kp, h1, hs⟩
      · rcases List.mem_singleton.mp h1 with rfl
        simp [initPivot, alGet_nil] at hs
  cases type with
  | NET_AMOUNT =>
    simp only [step1]
    by_cases hdoc : r.docId ∈ st.netDocs
    · rw [if_pos hdoc]
      intro kp hkp s hs
      exact Or.inl (hm0 kp hkp s hs)
    · rw [if_neg hdoc]
      intro kp hkp s hs
      refine mem_alModify_of
        (fun kp => ∀ s : String, (alGet kp.2.values s).isSome →
          (∃ kp0 ∈ st.rowMap, (alGet kp0.2.values s).isSome) ∨ s = r.salesRep)
        (fun kp hkp s hs => Or.inl (hm0 kp hkp s hs)) ?_ kp hkp s hs
      intro v hv s hs
      rcases alGet_alSet_isSome hs with h1 | h1
      · exact Or.inr h1
      · exact hv s h1
  | PRODUCT_LIST =>
    simp only [step1]
    intro kp hkp s hs
    refine mem_alModify_of
      (fun kp => ∀ s : String, (alGet kp.2.values s).isSome →
        (∃ kp0 ∈ st.rowMap, (alGet kp0.2.values s).isSome) ∨ s = r.salesRep)
      (fun kp hkp s hs => Or.inl (hm0 kp hkp s hs)) ?_ kp hkp s hs
    intro v hv s hs
    rcases alGet_alSet_isSome hs with h1 | h1
    · exact Or.inr h1
    · exact hv s h1
  | ORDER_COUNT =>
    simp only [step1]
    intro kp hkp s hs
    exact Or.inl (hm0 kp hkp s hs)
  | CLIENT_SEARCH =>
    simp only [step1]
    intro kp hkp s hs
    exact Or.inl (hm0 kp hkp s hs)

theorem foldl_step1_values_keys (type : ReportType) (l : List ProcessedRow) :
    ∀ (st : Agg1),
      ∀ kp ∈ (l.foldl (step1 type) st).rowMap, ∀ s : String,
        (alGet kp.2.values s).isSome →
        (∃ kp0 ∈ st.rowMap, (alGet kp0.2.values s).isSome) ∨
          ∃ r ∈ l, r.salesRep = s := by
  induction l with
  | nil => intro st kp hkp s hs; exact Or.inl ⟨kp, hkp, hs⟩
  | cons r rest ih =>
    intro st kp hkp s hs
    rcases ih (step1 type st r) kp hkp s hs with ⟨kp0, hkp0, hs0⟩ | ⟨r2, hr2, hs2⟩
    · rcases step1_values_keys type st r kp0 hkp0 s hs0 with h1 | h1
      · exact Or.inl h1
      · exact Or.inr ⟨r, List.mem_cons_self _ _, h1.symm⟩
    · exact Or.inr ⟨r2, List.mem_cons_of_mem _ hr2, hs2⟩

/-- Any column key present in any per-district object after one `step2`
iteration was present before, is the `"_total"` sentinel, or is the processed
row's rep. -/
theorem step2_cols_keys (dm : List (String × List (String × List String)))
    (r : ProcessedRow) :
    ∀ kc ∈ step2 dm r, ∀ s ∈ keysOf kc.2,
      (∃ kc0 ∈ dm, s ∈ keysOf kc0.2) ∨ s = "_total" ∨ s = r.salesRep := by
  have hdm0 : ∀ kc ∈ (if (alGet dm r.district).isSome then dm
      else dm ++ [(r.district, [("_total", ([] : List String))])]),
      ∀ s ∈ keysOf kc.2,
        (∃ kc0 ∈ dm, s ∈ keysOf kc0.2) ∨ s = "_total" := by
    by_cases h : (alGet dm r.district).isSome
    · rw [if_pos h]
      intro kc hkc s hs
      exact Or.inl ⟨kc, hkc, hs⟩
    · rw [if_neg h]
      intro kc hkc s hs
      rcases List.mem_append.mp hkc with h1 | h1
      · exact Or.inl ⟨kc, h1, hs⟩
      · rcases List.mem_singleton.mp h1 with rfl
        simp only [keysOf, List.map_cons, List.map_nil] at hs
        rcases List.mem_singleton.mp hs with rfl
        exact Or.inr rfl
  simp only [step2]
  intro kc hkc s hs
  refine mem_alModify_of
    (fun kc => ∀ s ∈ keysOf kc.2,
      (∃ kc0 ∈ dm, s ∈ keysOf kc0.2) ∨ s = "_total" ∨ s = r.salesRep)
    (fun kc hkc s hs => by
      rcases hdm0 kc hkc s hs with h1 | h1
      · exact Or.inl h1
      · exact Or.inr (Or.inl h1)) ?_ kc hkc s hs
  intro cols hcols s hs
  simp only [updCols] at hs
  rw [keysOf_alModify, keysOf_alModify] at hs
  by_cases hrep : (alGet cols r.salesRep).isSome
  · rw [if_pos hrep] at hs
    exact hcols s hs
  · rw [if_neg hrep] at hs
    simp only [keysOf, List.map_append, List.map_cons, List.map_nil] at hs
    rcases List.mem_append.mp hs with h1 | h1
    · exact hcols s (by simpa [keysOf] using h1)
    · rcases List.mem_singleton.mp h1 with rfl
      exact Or.inr (Or.inr rfl)

theorem foldl_step2_cols_keys (l : List ProcessedRow) :
    ∀ (dm : List (String × List (String × List String))),
      ∀ kc ∈ l.foldl step2 dm, ∀ s ∈ keysOf kc.2,
        (∃ kc0 ∈ dm, s ∈ keysOf kc0.2) ∨ s = "_total" ∨
          ∃ r ∈ l, r.salesRep = s := by
  induction l with
  | nil => intro dm kc hkc s hs; exact Or.inl ⟨kc, hkc, hs⟩
  | cons r rest ih =>
    intro dm kc hkc s hs
    rcases ih (step2 dm r) kc hkc s hs with ⟨kc0, hkc0, hs0⟩ | h1 | ⟨r2, hr2, hs2⟩
    · rcases step2_cols_keys dm r kc0 hkc0 s hs0 with h2 | h2 | h2
      · exact Or.inl h2
      · exact Or.inr (Or.inl h2)
      · exact Or.inr (Or.inr ⟨r, List.mem_cons_self _ _, h2.symm⟩)
    · exact Or.inr (Or.inl h1)
    · exact Or.inr (Or.inr ⟨r2, List.mem_cons_of_mem _ hr2, hs2⟩)

/-- In the values object produced by `convert2`, the `"_total"` sentinel key
never occurs. -/
theorem alGet_convert2_values_total (cols : List (String × List String)) :
    alGet ((cols.filter (fun sc => sc.1 ≠ "_total")).map
      (fun sc => (sc.1, JsNum.num (sc.2.length : ℚ)))) "_total" = none := by
  induction cols with
  | nil => rfl
  | cons sc rest ih =>
    rw [List.filter_cons]
    by_cases h : sc.1 = "_total"
    · simp only [h]
      rw [if_neg (by simp)]
      exact ih
    · rw [if_pos (by simpa using h), List.map_cons, alGet_cons, if_neg h]
      exact ih

/-- Lookup of any other key in the `convert2` values object is the length of
its doc-id set. -/
theorem alGet_convert2_values_ne (cols : List (String × List String))
    {s : String} (h : s ≠ "_total") :
    alGet ((cols.filter (fun sc => sc.1 ≠ "_total")).map
        (fun sc => (sc.1, JsNum.num (sc.2.length : ℚ)))) s =
      (alGet cols s).map (fun l => JsNum.num (l.length : ℚ)) := by
  induction cols with
  | nil => rfl
  | cons sc rest ih =>
    rw [List.filter_cons, alGet_cons]
    by_cases hsc : sc.1 = "_total"
    · rw [if_neg (by simp [hsc]), if_neg (fun he : sc.1 = s => h (he.symm.trans hsc))]
      exact ih
    · rw [if_pos (by simpa using hsc), List.map_cons, alGet_cons]
      by_cases hss : sc.1 = s
      · rw [if_pos hss, if_pos hss]
        rfl
      · rw [if_neg hss, if_neg hss]
        exact ih

/-- C4: every key occurring in any `PivotData.values` mapping of the result
is a member of `columns`; `columns` is exactly the alphabetically sorted
(code-unit lexical order), deduplicated list of `salesRep` values occurring
in the filtered rows, for every report kind alike (no report-kind-specific
filtering of reps). -/
theorem c4_columns_invariant (rows : List ProcessedRow) (type : ReportType) :
    (∀ p ∈ (generateReport rows type).data, ∀ s : String,
      (alGet p.values s).isSome → s ∈ (generateReport rows type).columns) ∧
    (∀ s : String,
      s ∈ (generateReport rows type).columns ↔
        s ∈ (filterRows rows).map (·.salesRep)) ∧
    ((generateReport rows type).columns.Pairwise (fun a b => lexLe a b = true)) ∧
    (generateReport rows type).columns.Nodup := by
  have hcol : (generateReport rows type).columns =
      sortBy (fun a b => lexLe a b)
        (dedupFirst ((filterRows rows).map (·.salesRep))) := rfl
  have hdata : (generateReport rows type).data =
      sortBy (fun a b => localeLe a.rowLabel b.rowLabel)
        (aggEntriesOf (filterRows rows) type) := rfl
  have hmemcol : ∀ s : String,
      s ∈ (generateReport rows type).columns ↔
        s ∈ (filterRows rows).map (·.salesRep) := by
    intro s
    rw [hcol, mem_sortBy, mem_dedupFirst]
  refine ⟨?_, hmemcol, ?_, ?_⟩
  · intro p hp s hs
    rw [hdata, mem_sortBy] at hp
    rw [hmemcol]
    by_cases ht : type = ReportType.ORDER_COUNT
    · subst ht
      unfold aggEntriesOf at hp
      rw [if_pos rfl] at hp
      rcases List.mem_map.mp hp with ⟨kc2, hkc2, rfl⟩
      unfold convert2 at hkc2
      rcases List.mem_map.mp hkc2 with ⟨kc, hkc, rfl⟩
      dsimp only at hs
      by_cases hst : s = "_total"
      · subst hst
        rw [alGet_convert2_values_total] at hs
        simp at hs
      · rw [alGet_convert2_values_ne kc.2 hst] at hs
        have h2 : (alGet kc.2 s).isSome := by
          cases hget : alGet kc.2 s with
          | none => rw [hget] at hs; simp at hs
          | some l => rfl
        have h3 : s ∈ keysOf kc.2 := alGet_isSome_iff.mp h2
        rcases foldl_step2_cols_keys (filterRows rows) [] kc hkc s h3 with
          ⟨kc0, hkc0, -⟩ | h4 | ⟨r, hr, hrs⟩
        · cases hkc0
        · exact absurd h4 hst
        · exact List.mem_map.mpr ⟨r, hr, hrs⟩
    · unfold aggEntriesOf at hp
      rw [if_neg ht] at hp
      rcases List.mem_map.mp hp with ⟨kp, hkp, rfl⟩
      rcases foldl_step1_values_keys type (filterRows rows)
          { rowMap := [], netDocs := [] } kp hkp s hs with ⟨kp0, hkp0, -⟩ | ⟨r, hr, hrs⟩
      · cases hkp0
      · exact List.mem_map.mpr ⟨r, hr, hrs⟩
  · rw [hcol]
    exact sortBy_sorted (fun a b c => lexLe_trans a b c)
      (fun a b => lexLe_total a b) _
  · rw [hcol]
    exact ((sortBy_perm _ _).nodup_iff).mpr (nodup_dedupFirst _)

def c4WitnessRows : List ProcessedRow := [mkTestRow "1" "Lima" "Juan" "MAYORISTAS B" 10]

def c4WitnessPivot : PivotData :=
  { rowKey := "Lima", rowLabel := "Lima", total := JsNum.num 1,
    values := [("Juan", JsNum.num 1)] }

/-- C4 witness: the invariant applied at a concrete one-row input under
ORDER_COUNT, with the membership and isSome hypotheses discharged
concretely. -/
theorem c4_columns_invariant_witness :
    c4WitnessPivot ∈ (generateReport c4WitnessRows ReportType.ORDER_COUNT).data ∧
    ("Juan" ∈ (generateReport c4WitnessRows ReportType.ORDER_COUNT).columns) ∧
    ("Juan" ∈ (generateReport c4WitnessRows ReportType.ORDER_COUNT).columns ↔
      "Juan" ∈ (filterRows c4WitnessRows).map (·.salesRep)) := by
  have h := c4_columns_invariant c4WitnessRows ReportType.ORDER_COUNT
  refine ⟨by decide, ?_, h.2.1 "Juan"⟩
  exact h.1 c4WitnessPivot (by decide) "Juan" (by decide)

/-! ### C1: NET_AMOUNT global document deduplication -/

/-- The lines actually counted by the NET_AMOUNT aggregation, as the claim
words it: of the rows remaining after `seen`, one line per distinct `docId`
— its first-encountered line, tracked globally by a single seen-set across
the whole run. -/
def netRows : List ProcessedRow → List String → List ProcessedRow
  | [], _ => []
  | r :: rest, seen =>
    if r.docId ∈ seen then netRows rest seen
    else r :: netRows rest (r.docId :: seen)

theorem netRows_congr : ∀ (l : List ProcessedRow) (s₁ s₂ : List String),
    (∀ x : String, x ∈ s₁ ↔ x ∈ s₂) → netRows l s₁ = netRows l s₂ := by
  intro l
  induction l with
  | nil => intro s₁ s₂ _; rfl
  | cons r rest ih =>
    intro s₁ s₂ h
    simp only [netRows]
    by_cases hd : r.docId ∈ s₁
    · rw [if_pos hd, if_pos ((h _).mp hd)]
      exact ih s₁ s₂ h
    · rw [if_neg hd, if_neg (fun hc => hd ((h _).mpr hc))]
      rw [ih (r.docId :: s₁) (r.docId :: s₂)
        (by intro x; simp only [List.mem_cons, h x])]

theorem netRows_sublist : ∀ (l : List ProcessedRow) (seen : List String),
    List.Sublist (netRows l seen) l := by
  intro l
  induction l with
  | nil => intro seen; exact List.Sublist.refl _
  | cons r rest ih =>
    intro seen
    simp only [netRows]
    by_cases hd : r.docId ∈ seen
    · rw [if_pos hd]; exact (ih seen).cons r
    · rw [if_neg hd]; exact (ih _).cons₂ r

theorem netRows_docIds : ∀ (l : List ProcessedRow) (seen : List String),
    (netRows l seen).map (·.docId) = dedupFirstAux seen (l.map (·.docId)) := by
  intro l
  induction l with
  | nil => intro seen; rfl
  | cons r rest ih =>
    intro seen
    simp only [netRows, List.map_cons, dedupFirstAux]
    by_cases hd : r.docId ∈ seen
    · rw [if_pos hd, if_pos hd]; exact ih seen
    · rw [if_neg hd, if_neg hd, List.map_cons, ih]

/-- The row total recorded for key `k`, zero when the key is absent. -/
def totalOf (m : List (String × PivotData)) (k : String) : JsNum :=
  match alGet m k with
  | some p => p.total
  | none => 0

/-- Net amount summed (NaN-propagating) over the counted lines of one
district. -/
def netSum (N : List ProcessedRow) (k : String) : JsNum :=
  ((N.filter (fun r => r.district = k)).map (fun r => jsDivTax r.totalAmount)).sum

theorem totalOf_append_new (m : List (String × PivotData)) (k0 l0 k : String)
    (h : alGet m k0 = none) :
    totalOf (m ++ [(k0, initPivot k0 l0)]) k = totalOf m k := by
  unfold totalOf
  by_cases hk : k = k0
  · subst hk
    rw [alGet_append_single_self m k _ h, h]
    rfl
  · rw [alGet_append_single_ne m k0 k _ hk]

theorem totalOf_alModify_ne (m : List (String × PivotData)) (k' k : String)
    (f : PivotData → PivotData) (h : k ≠ k') :
    totalOf (alModify m k' f) k = totalOf m k := by
  unfold totalOf
  rw [alGet_alModify_ne m k' k f h]

/-- One NET_AMOUNT / PRODUCT_LIST accumulation adds `v` to the entry's
total. -/
theorem totalOf_alModify_add {m : List (String × PivotData)} {k : String}
    {e : PivotData} (h : alGet m k = some e) (v : JsNum)
    (f : PivotData → PivotData) (hf : ∀ p, (f p).total = p.total + v) :
    totalOf (alModify m k f) k = totalOf m k + v := by
  unfold totalOf
  rw [alGet_alModify_self f h, h]
  exact hf e

/-- Invariant of the NET_AMOUNT pass: after folding any remaining rows, the
total of each key has grown by the net sum of the lines that `netRows`
counts for it from this point on, with the current seen-set. -/
theorem pass1_net (l : List ProcessedRow) : ∀ (st : Agg1),
    (keysOf st.rowMap).Nodup →
    (∀ kp ∈ st.rowMap, kp.2.rowKey = kp.1 ∧ kp.2.rowLabel = kp.1) →
    (keysOf (l.foldl (step1 ReportType.NET_AMOUNT) st).rowMap).Nodup ∧
    (∀ kp ∈ (l.foldl (step1 ReportType.NET_AMOUNT) st).rowMap,
      kp.2.rowKey = kp.1 ∧ kp.2.rowLabel = kp.1) ∧
    (∀ k : String,
      totalOf (l.foldl (step1 ReportType.NET_AMOUNT) st).rowMap k =
        totalOf st.rowMap k + netSum (netRows l st.netDocs) k) := by
  induction l with
  | nil =>
    intro st h1 h2
    refine ⟨h1, h2, fun k => ?_⟩
    show totalOf st.rowMap k = totalOf st.rowMap k + netSum (netRows [] st.netDocs) k
    rw [show netRows [] st.netDocs = [] from rfl]
    rw [show netSum [] k = 0 from rfl, add_zero]
  | cons r rest ih =>
    intro st h1 h2
    have hrk : rowKeyOf ReportType.NET_AMOUNT r = r.district := rfl
    have hrl : rowLabelOf ReportType.NET_AMOUNT r = r.district := rfl
    set m0 := if (alGet st.rowMap (rowKeyOf ReportType.NET_AMOUNT r)).isSome
      then st.rowMap
      else st.rowMap ++ [(rowKeyOf ReportType.NET_AMOUNT r,
        initPivot (rowKeyOf ReportType.NET_AMOUNT r)
          (rowLabelOf ReportType.NET_AMOUNT r))] with hm0
    have f1 : (keysOf m0).Nodup := by
      rw [hm0]
      by_cases h : (alGet st.rowMap (rowKeyOf ReportType.NET_AMOUNT r)).isSome
      · rwa [if_pos h]
      · rw [if_neg h]
        rw [show keysOf (st.rowMap ++ [(rowKeyOf ReportType.NET_AMOUNT r,
          initPivot (rowKeyOf ReportType.NET_AMOUNT r)
            (rowLabelOf ReportType.NET_AMOUNT r))]) =
          keysOf st.rowMap ++ [rowKeyOf ReportType.NET_AMOUNT r] from by
            simp [keysOf]]
        have hnomem : rowKeyOf ReportType.NET_AMOUNT r ∉ keysOf st.rowMap := by
          intro hmem
          exact h (alGet_isSome_iff.mpr hmem)
        simp only [List.nodup_append, List.nodup_singleton]
        exact ⟨h1, by simp, by
          intro a ha hb
          rcases List.mem_singleton.mp hb with rfl
          exact hnomem ha⟩
    have f2 : ∀ kp ∈ m0, kp.2.rowKey = kp.1 ∧ kp.2.rowLabel = kp.1 := by
      rw [hm0]
      by_cases h : (alGet st.rowMap (rowKeyOf ReportType.NET_AMOUNT r)).isSome
      · rw [if_pos h]; exact h2
      · rw [if_neg h]
        intro kp hkp
        rcases List.mem_append.mp hkp with hkp1 | hkp1
        · exact h2 kp hkp1
        · rcases List.mem_singleton.mp hkp1 with rfl
          exact ⟨rfl, hrl.trans hrk.symm⟩
    have f3 : ∀ k, totalOf m0 k = totalOf st.rowMap k := by
      rw [hm0]
      by_cases h : (alGet st.rowMap (rowKeyOf ReportType.NET_AMOUNT r)).isSome
      · rw [if_pos h]; intro k; rfl
      · rw [if_neg h]
        intro k
        exact totalOf_append_new st.rowMap _ _ k
          (Option.not_isSome_iff_eq_none.mp h)
    have f4 : (alGet m0 (rowKeyOf ReportType.NET_AMOUNT r)).isSome := by
      rw [hm0]
      by_cases h : (alGet st.rowMap (rowKeyOf ReportType.NET_AMOUNT r)).isSome
      · rwa [if_pos h]
      · rw [if_neg h]
        rw [alGet_append_single_self st.rowMap _ _
          (Option.not_isSome_iff_eq_none.mp h)]
        rfl
    by_cases hdoc : r.docId ∈ st.netDocs
    · have hstep : step1 ReportType.NET_AMOUNT st r =
          { rowMap := m0, netDocs := st.netDocs } := by
        simp only [step1, hm0, if_pos hdoc]
      have hfold : (r :: rest).foldl (step1 ReportType.NET_AMOUNT) st =
          rest.foldl (step1 ReportType.NET_AMOUNT)
            { rowMap := m0, netDocs := st.netDocs } := by
        rw [List.foldl_cons, hstep]
      rcases ih { rowMap := m0, netDocs := st.netDocs } f1 f2 with ⟨g1, g2, g3⟩
      rw [hfold]
      refine ⟨g1, g2, fun k => ?_⟩
      rw [g3 k]
      rw [show netRows (r :: rest) st.netDocs = netRows rest st.netDocs from by
        simp only [netRows, if_pos hdoc]]
      rw [f3 k]
    · set netVal := jsDivTax r.totalAmount with hnv
      set fmod : PivotData → PivotData := fun e =>
        { e with
          values := alSet e.values r.salesRep
            (jsOrZero (alGet e.values r.salesRep) + netVal),
          total := e.total + netVal } with hfmod
      have hstep : step1 ReportType.NET_AMOUNT st r =
          (⟨alModify m0 (rowKeyOf ReportType.NET_AMOUNT r) fmod,
            setAdd st.netDocs r.docId⟩ : Agg1) := by
        simp only [step1, hm0, hfmod, if_neg hdoc, hnv]
      have hfold : (r :: rest).foldl (step1 ReportType.NET_AMOUNT) st =
          rest.foldl (step1 ReportType.NET_AMOUNT)
            (⟨alModify m0 (rowKeyOf ReportType.NET_AMOUNT r) fmod,
              setAdd st.netDocs r.docId⟩ : Agg1) := by
        rw [List.foldl_cons, hstep]
      have f1m : (keysOf (alModify m0 (rowKeyOf ReportType.NET_AMOUNT r) fmod)).Nodup := by
        rwa [keysOf_alModify]
      have f2m : ∀ kp ∈ alModify m0 (rowKeyOf ReportType.NET_AMOUNT r) fmod,
          kp.2.rowKey = kp.1 ∧ kp.2.rowLabel = kp.1 :=
        mem_alModify_of _ f2 (fun v hv => hv)
      rcases ih (⟨alModify m0 (rowKeyOf ReportType.NET_AMOUNT r) fmod,
          setAdd st.netDocs r.docId⟩ : Agg1) f1m f2m with ⟨g1, g2, g3⟩
      rw [hfold]
      refine ⟨g1, g2, fun k => ?_⟩
      rw [g3 k]
      have hseen : netRows rest (setAdd st.netDocs r.docId) =
          netRows rest (r.docId :: st.netDocs) := by
        apply netRows_congr
        intro x
        simp [setAdd, if_neg hdoc, or_comm]
      rw [show netRows (r :: rest) st.netDocs =
          r :: netRows rest (r.docId :: st.netDocs) from by
        simp only [netRows, if_neg hdoc]]
      rw [hseen]
      obtain ⟨e, he⟩ := Option.isSome_iff_exists.mp f4
      by_cases hk : k = rowKeyOf ReportType.NET_AMOUNT r
      · rw [hk]
        rw [totalOf_alModify_add he netVal fmod (fun p => rfl), f3 _]
        rw [show netSum (r :: netRows rest (r.docId :: st.netDocs))
            (rowKeyOf ReportType.NET_AMOUNT r) =
            netVal + netSum (netRows rest (r.docId :: st.netDocs))
              (rowKeyOf ReportType.NET_AMOUNT r) from by
          unfold netSum
          rw [List.filter_cons_of_pos (by simp [hrk])]
          rw [List.map_cons, List.sum_cons, hnv]]
        rw [add_assoc]
      · rw [totalOf_alModify_ne m0 _ k fmod hk, f3 k]
        rw [show netSum (r :: netRows rest (r.docId :: st.netDocs)) k =
            netSum (netRows rest (r.docId :: st.netDocs)) k from by
          unfold netSum
          rw [List.filter_cons_of_neg (by simp [hrk]; exact fun he2 => hk (hrk ▸ he2.symm))]]

/-- C1: in the NET_AMOUNT report each distinct `docId` among the filtered
rows contributes its net amount (`totalAmount / 1.18`) at most once, taken
from its first-encountered line in input order, with deduplication global
across the whole run (`netRows` keeps exactly one line per distinct docId —
the first — regardless of district/rep); each district row's total is the
sum of the net amounts actually counted for that district. -/
theorem c1_net_amount_global_dedup (rows : List ProcessedRow) :
    List.Sublist (netRows (filterRows rows) []) (filterRows rows) ∧
    ((netRows (filterRows rows) []).map (·.docId) =
      dedupFirst ((filterRows rows).map (·.docId))) ∧
    ∀ p ∈ (generateReport rows ReportType.NET_AMOUNT).data,
      p.total = netSum (netRows (filterRows rows) []) p.rowKey := by
  refine ⟨netRows_sublist _ _, netRows_docIds _ _, ?_⟩
  intro p hp
  have hdata : (generateReport rows ReportType.NET_AMOUNT).data =
      sortBy (fun a b => localeLe a.rowLabel b.rowLabel)
        (aggEntriesOf (filterRows rows) ReportType.NET_AMOUNT) := rfl
  rw [hdata, mem_sortBy] at hp
  unfold aggEntriesOf at hp
  rw [if_neg (by decide)] at hp
  rcases List.mem_map.mp hp with ⟨kp, hkp, rfl⟩
  rcases pass1_net (filterRows rows) { rowMap := [], netDocs := [] }
    (by simp [keysOf]) (by intro kp hkp; cases hkp) with ⟨g1, g2, g3⟩
  have hpair : (kp.1, kp.2) ∈ ((filterRows rows).foldl
      (step1 ReportType.NET_AMOUNT) { rowMap := [], netDocs := [] }).rowMap := by
    simpa using hkp
  have hget := alGet_of_mem g1 hpair
  have htot := g3 kp.1
  rw [show totalOf (((filterRows rows).foldl (step1 ReportType.NET_AMOUNT)
      { rowMap := [], netDocs := [] }).rowMap) kp.1 = kp.2.total from by
    unfold totalOf; rw [hget]] at htot
  rw [show totalOf (({ rowMap := [], netDocs := [] } : Agg1)).rowMap kp.1 = 0
    from rfl] at htot
  rw [zero_add] at htot
  rw [(g2 kp hkp).1, htot]

def c1WitnessRows : List ProcessedRow :=
  [mkTestRow "1" "Lima" "Juan" "MAYORISTAS B" 118,
   mkTestRow "1" "Cusco" "Ana" "MAYORISTAS C" 59]

def c1WitnessPivot : PivotData :=
  { rowKey := "Lima", rowLabel := "Lima", total := JsNum.num 100,
    values := [("Juan", JsNum.num 100)] }

def c1WitnessPivotCusco : PivotData :=
  { rowKey := "Cusco", rowLabel := "Cusco", total := JsNum.num 0, values := [] }

/-- C1 witness: two lines share docId "1" in different districts; only the
first line (Lima, 118 → net 100) is counted; the Cusco row exists with total
0.  The theorem is applied at the concrete Lima row. -/
theorem c1_net_amount_global_dedup_witness :
    c1WitnessPivot ∈ (generateReport c1WitnessRows ReportType.NET_AMOUNT).data ∧
    c1WitnessPivot.total =
      netSum (netRows (filterRows c1WitnessRows) []) c1WitnessPivot.rowKey := by
  have hdata : (generateReport c1WitnessRows ReportType.NET_AMOUNT).data =
      [c1WitnessPivotCusco, c1WitnessPivot] := by
    simp only [generateReport, generateReportWith, generateReportCore,
      moduleConstants, filterRowsWith, EXCLUDED_STATUS, ALLOWED_GROUPS,
      jsIncludes, occursIn, leadSeg, aggEntriesOf, step1, rowKeyOf, rowLabelOf,
      initPivot, alGet, alSet, alModify, setAdd, sortBy, insertBy, localeLe,
      localeKey, lexLe, charCodes, keyLe, jsToLower, jsCharToLower, jsDivTax,
      jsOrZero, c1WitnessRows, mkTestRow, c1WitnessPivot, c1WitnessPivotCusco,
      JsNum.num_add_num, List.foldl, List.filter, List.find?, List.map]
    norm_num [JsNum.num_add_num]
    decide
  have hmem : c1WitnessPivot ∈
      (generateReport c1WitnessRows ReportType.NET_AMOUNT).data := by
    rw [hdata]
    exact List.mem_cons_of_mem _ (List.mem_singleton.mpr rfl)
  exact ⟨hmem, (c1_net_amount_global_dedup c1WitnessRows).2.2 c1WitnessPivot hmem⟩

/-! ### C2 / C10: ORDER_COUNT distinct counts -/

/-- Number of distinct strings in a list, the way the spec counts distinct
document ids. -/
def countDistinct (l : List String) : ℕ := l.toFinset.card

theorem setAdd_idem (s : List String) (x : String) :
    setAdd (setAdd s x) x = setAdd s x := by
  unfold setAdd
  by_cases h : x ∈ s
  · rw [if_pos h, if_pos h]
  · rw [if_neg h, if_pos (by simp)]

theorem updCols_total {cols : List (String × List String)} {T : List String}
    (rep d : String) (hT : alGet cols "_total" = some T) :
    alGet (updCols cols rep d) "_total" = some (setAdd T d) := by
  simp only [updCols]
  by_cases hrt : rep = "_total"
  · have hpres : (alGet cols rep).isSome := by rw [hrt, hT]; rfl
    rw [if_pos hpres]
    have hTr : alGet cols rep = some T := by rw [hrt]; exact hT
    have h2 : alGet (alModify cols rep (fun s => setAdd s d)) "_total" =
        some (setAdd T d) := by
      rw [← hrt] at hT ⊢
      exact alGet_alModify_self _ hTr
    rw [alGet_alModify_self _ h2, setAdd_idem]
  · have h1 : alGet (if (alGet cols rep).isSome then cols
        else cols ++ [(rep, ([] : List String))]) "_total" = some T := by
      by_cases hp : (alGet cols rep).isSome
      · rwa [if_pos hp]
      · rw [if_neg hp]
        rw [alGet_append_single_ne cols rep "_total" [] (fun he => hrt he.symm)]
        exact hT
    have h2 : alGet (alModify (if (alGet cols rep).isSome then cols
        else cols ++ [(rep, ([] : List String))]) rep (fun s => setAdd s d))
        "_total" = some T := by
      rw [alGet_alModify_ne _ rep "_total" _ (fun he => hrt he.symm)]
      exact h1
    exact alGet_alModify_self _ h2

theorem updCols_rep {cols : List (String × List String)} {rep d : String}
    (hrep : rep ≠ "_total") :
    alGet (updCols cols rep d) rep =
      some (setAdd ((alGet cols rep).getD []) d) := by
  simp only [updCols]
  rw [alGet_alModify_ne _ "_total" rep _ hrep]
  by_cases hp : (alGet cols rep).isSome
  · rw [if_pos hp]
    obtain ⟨S, hS⟩ := Option.isSome_iff_exists.mp hp
    rw [alGet_alModify_self _ hS, hS]
    rfl
  · rw [if_neg hp]
    have h1 : alGet (cols ++ [(rep, ([] : List String))]) rep = some [] :=
      alGet_append_single_self cols rep []
        (Option.not_isSome_iff_eq_none.mp hp)
    rw [alGet_alModify_self _ h1, Option.not_isSome_iff_eq_none.mp hp]
    rfl

theorem updCols_other {cols : List (String × List String)} {rep d s : String}
    (hs1 : s ≠ "_total") (hs2 : s ≠ rep) :
    alGet (updCols cols rep d) s = alGet cols s := by
  simp only [updCols]
  rw [alGet_alModify_ne _ "_total" s _ hs1, alGet_alModify_ne _ rep s _ hs2]
  by_cases hp : (alGet cols rep).isSome
  · rw [if_pos hp]
  · rw [if_neg hp]
    exact alGet_append_single_ne cols rep s [] hs2

theorem updCols_nodup {cols : List (String × List String)} (rep d : String)
    (h : ∀ sc ∈ cols, sc.2.Nodup) :
    ∀ sc ∈ updCols cols rep d, sc.2.Nodup := by
  simp only [updCols]
  have h1 : ∀ sc ∈ (if (alGet cols rep).isSome then cols
      else cols ++ [(rep, ([] : List String))]), sc.2.Nodup := by
    by_cases hp : (alGet cols rep).isSome
    · rw [if_pos hp]; exact h
    · rw [if_neg hp]
      intro sc hsc
      rcases List.mem_append.mp hsc with h2 | h2
      · exact h sc h2
      · rcases List.mem_singleton.mp h2 with rfl
        exact List.nodup_nil
  exact mem_alModify_of _
    (mem_alModify_of _ h1 (fun v hv => setAdd_nodup hv d))
    (fun v hv => setAdd_nodup hv d)

/-- The set of document ids recorded under key `s` for district `k` (empty
when either level is absent). -/
def cellF (dm : List (String × List (String × List String))) (k s : String) :
    Finset String :=
  (((alGet dm k).bind (fun cols => alGet cols s)).getD []).toFinset

/-- One `step2` iteration: keys stay well-formed and each doc-id set grows by
exactly this row's doc id in the cells the row targets. -/
theorem step2_props (dm : List (String × List (String × List String)))
    (r : ProcessedRow)
    (h1 : (keysOf dm).Nodup)
    (h2 : ∀ kc ∈ dm, (alGet kc.2 "_total").isSome)
    (h3 : ∀ kc ∈ dm, ∀ sc ∈ kc.2, sc.2.Nodup) :
    (keysOf (step2 dm r)).Nodup ∧
    (∀ kc ∈ step2 dm r, (alGet kc.2 "_total").isSome) ∧
    (∀ kc ∈ step2 dm r, ∀ sc ∈ kc.2, sc.2.Nodup) ∧
    (∀ k, cellF (step2 dm r) k "_total" =
      if r.district = k then insert r.docId (cellF dm k "_total")
      else cellF dm k "_total") ∧
    (∀ k s, s ≠ "_total" → cellF (step2 dm r) k s =
      if r.district = k ∧ r.salesRep = s then insert r.docId (cellF dm k s)
      else cellF dm k s) := by
  set dm0 := if (alGet dm r.district).isSome then dm
    else dm ++ [(r.district, [("_total", ([] : List String))])] with hdm0
  have hstep : step2 dm r =
      alModify dm0 r.district (fun cols => updCols cols r.salesRep r.docId) := rfl
  -- facts about dm0
  have e1 : (keysOf dm0).Nodup := by
    rw [hdm0]
    by_cases hp : (alGet dm r.district).isSome
    · rwa [if_pos hp]
    · rw [if_neg hp]
      have hnomem : r.district ∉ keysOf dm := fun hmem =>
        hp (alGet_isSome_iff.mpr hmem)
      rw [show keysOf (dm ++ [(r.district, [("_total", ([] : List String))])]) =
        keysOf dm ++ [r.district] from by simp [keysOf]]
      simp only [List.nodup_append, List.nodup_singleton]
      exact ⟨h1, by simp, by
        intro a ha hb
        rcases List.mem_singleton.mp hb with rfl
        exact hnomem ha⟩
  have e2 : ∀ kc ∈ dm0, (alGet kc.2 "_total").isSome := by
    rw [hdm0]
    by_cases hp : (alGet dm r.district).isSome
    · rw [if_pos hp]; exact h2
    · rw [if_neg hp]
      intro kc hkc
      rcases List.mem_append.mp hkc with hh | hh
      · exact h2 kc hh
      · rcases List.mem_singleton.mp hh with rfl
        rfl
  have e3 : ∀ kc ∈ dm0, ∀ sc ∈ kc.2, sc.2.Nodup := by
    rw [hdm0]
    by_cases hp : (alGet dm r.district).isSome
    · rw [if_pos hp]; exact h3
    · rw [if_neg hp]
      intro kc hkc
      rcases List.mem_append.mp hkc with hh | hh
      · exact h3 kc hh
      · rcases List.mem_singleton.mp hh with rfl
        intro sc hsc
        rcases List.mem_singleton.mp hsc with rfl
        exact List.nodup_nil
  have e4 : (alGet dm0 r.district).isSome := by
    rw [hdm0]
    by_cases hp : (alGet dm r.district).isSome
    · rwa [if_pos hp]
    · rw [if_neg hp]
      rw [alGet_append_single_self dm r.district _
        (Option.not_isSome_iff_eq_none.mp hp)]
      rfl
  have e5 : ∀ k, k ≠ r.district → alGet dm0 k = alGet dm k := by
    rw [hdm0]
    intro k hk
    by_cases hp : (alGet dm r.district).isSome
    · rw [if_pos hp]
    · rw [if_neg hp]
      exact alGet_append_single_ne dm r.district k _ hk
  obtain ⟨cols0, hcols0⟩ := Option.isSome_iff_exists.mp e4
  have hcols0mem : (r.district, cols0) ∈ dm0 := alGet_mem hcols0
  -- the doc sets of dm0 agree with dm everywhere
  have hval : alGet dm0 r.district =
      if (alGet dm r.district).isSome then alGet dm r.district
      else some [("_total", ([] : List String))] := by
    rw [hdm0]
    by_cases hp : (alGet dm r.district).isSome
    · rw [if_pos hp, if_pos hp]
    · rw [if_neg hp, if_neg hp]
      exact alGet_append_single_self dm r.district _
        (Option.not_isSome_iff_eq_none.mp hp)
  have e7 : ∀ k s, cellF dm0 k s = cellF dm k s := by
    intro k s
    unfold cellF
    by_cases hk : k = r.district
    · rw [hk, hval]
      by_cases hp : (alGet dm r.district).isSome
      · rw [if_pos hp]
      · rw [if_neg hp, Option.not_isSome_iff_eq_none.mp hp,
          Option.some_bind, Option.none_bind]
        by_cases hs : "_total" = s
        · rw [alGet_cons, if_pos hs]
          rfl
        · rw [alGet_cons, if_neg hs]
          rfl
    · rw [e5 k hk]
  have hTsome := e2 (r.district, cols0) hcols0mem
  obtain ⟨T0, hT0⟩ := Option.isSome_iff_exists.mp hTsome
  have hget : ∀ k, alGet (step2 dm r) k =
      if k = r.district then some (updCols cols0 r.salesRep r.docId)
      else alGet dm0 k := by
    intro k
    rw [hstep]
    by_cases hk : k = r.district
    · rw [if_pos hk, hk]
      exact alGet_alModify_self _ hcols0
    · rw [if_neg hk]
      exact alGet_alModify_ne dm0 r.district k _ hk
  refine ⟨?_, ?_, ?_, ?_, ?_⟩
  · rw [hstep, keysOf_alModify]; exact e1
  · rw [hstep]
    refine mem_alModify_of _ e2 ?_
    intro v hv
    obtain ⟨T, hT⟩ := Option.isSome_iff_exists.mp hv
    rw [updCols_total r.salesRep r.docId hT]
    rfl
  · rw [hstep]
    refine mem_alModify_of _ e3 ?_
    intro v hv
    exact updCols_nodup r.salesRep r.docId hv
  · intro k
    by_cases hk : k = r.district
    · have hL : cellF (step2 dm r) k "_total" =
          insert r.docId T0.toFinset := by
        unfold cellF
        rw [hget k, if_pos hk, Option.some_bind,
          updCols_total r.salesRep r.docId hT0]
        show (setAdd T0 r.docId).toFinset = _
        exact setAdd_toFinset T0 r.docId
      have hR : cellF dm k "_total" = T0.toFinset := by
        rw [← e7 k "_total"]
        unfold cellF
        rw [hk, hcols0, Option.some_bind, hT0]
        rfl
      rw [if_pos hk.symm, hL, hR]
    · have hL : cellF (step2 dm r) k "_total" = cellF dm k "_total" := by
        rw [← e7 k "_total"]
        unfold cellF
        rw [hget k, if_neg hk]
      rw [if_neg (fun he => hk he.symm), hL]
  · intro k s hs
    by_cases hk : k = r.district
    · by_cases hrs : r.salesRep = s
      · subst hrs
        have hL : cellF (step2 dm r) k r.salesRep =
            insert r.docId ((alGet cols0 r.salesRep).getD []).toFinset := by
          unfold cellF
          rw [hget k, if_pos hk, Option.some_bind, updCols_rep hs]
          show (setAdd ((alGet cols0 r.salesRep).getD []) r.docId).toFinset = _
          exact setAdd_toFinset _ _
        have hR : cellF dm k r.salesRep =
            ((alGet cols0 r.salesRep).getD []).toFinset := by
          rw [← e7 k r.salesRep]
          unfold cellF
          rw [hk, hcols0, Option.some_bind]
        rw [if_pos ⟨hk.symm, rfl⟩, hL, hR]
      · have hL : cellF (step2 dm r) k s = cellF dm k s := by
          rw [← e7 k s]
          unfold cellF
          rw [hget k, if_pos hk, Option.some_bind,
            updCols_other hs (fun he => hrs he.symm), hk, hcols0,
            Option.some_bind]
        rw [if_neg (fun hc => hrs hc.2), hL]
    · have hL : cellF (step2 dm r) k s = cellF dm k s := by
        rw [← e7 k s]
        unfold cellF
        rw [hget k, if_neg hk]
      rw [if_neg (fun hc => hk hc.1.symm), hL]

/-- Invariant of the ORDER_COUNT pass: after folding the remaining rows, the
doc-id set of each (district, key) cell has grown by exactly the doc ids of
the matching remaining rows; all sets stay duplicate-free. -/
theorem pass2_inv (l : List ProcessedRow) :
    ∀ dm : List (String × List (String × List String)),
    (keysOf dm).Nodup →
    (∀ kc ∈ dm, (alGet kc.2 "_total").isSome) →
    (∀ kc ∈ dm, ∀ sc ∈ kc.2, sc.2.Nodup) →
    (keysOf (l.foldl step2 dm)).Nodup ∧
    (∀ kc ∈ l.foldl step2 dm, (alGet kc.2 "_total").isSome) ∧
    (∀ kc ∈ l.foldl step2 dm, ∀ sc ∈ kc.2, sc.2.Nodup) ∧
    (∀ k, cellF (l.foldl step2 dm) k "_total" =
      cellF dm k "_total" ∪
        ((l.filter (fun r => r.district = k)).map (·.docId)).toFinset) ∧
    (∀ k s, s ≠ "_total" → cellF (l.foldl step2 dm) k s =
      cellF dm k s ∪
        ((l.filter (fun r => r.district = k ∧ r.salesRep = s)).map
          (·.docId)).toFinset) := by
  induction l with
  | nil =>
    intro dm h1 h2 h3
    refine ⟨h1, h2, h3, fun k => ?_, fun k s _ => ?_⟩
    · simp
    · simp
  | cons r rest ih =>
    intro dm h1 h2 h3
    obtain ⟨p1, p2, p3, p4, p5⟩ := step2_props dm r h1 h2 h3
    obtain ⟨q1, q2, q3, q4, q5⟩ := ih (step2 dm r) p1 p2 p3
    rw [List.foldl_cons]
    refine ⟨q1, q2, q3, fun k => ?_, fun k s hs => ?_⟩
    · rw [q4 k, p4 k]
      by_cases hk : r.district = k
      · rw [if_pos hk, List.filter_cons_of_pos (by simp [hk]), List.map_cons,
          List.toFinset_cons, Finset.insert_union, Finset.union_insert]
      · rw [if_neg hk, List.filter_cons_of_neg (by simp [hk])]
    · rw [q5 k s hs, p5 k s hs]
      by_cases hk : r.district = k ∧ r.salesRep = s
      · rw [if_pos hk, List.filter_cons_of_pos (by simp [hk.1, hk.2]),
          List.map_cons, List.toFinset_cons, Finset.insert_union,
          Finset.union_insert]
      · rw [if_neg hk, List.filter_cons_of_neg (by simpa using hk)]

/-- Row totals of the ORDER_COUNT report: distinct doc-id count over all
filtered rows of the district. -/
theorem order_count_total_eq (rows : List ProcessedRow) :
    ∀ p ∈ (generateReport rows ReportType.ORDER_COUNT).data,
      p.total = JsNum.num ((countDistinct (((filterRows rows).filter
        (fun r => r.district = p.rowKey)).map (·.docId)) : ℚ)) := by
  intro p hp
  have hdata : (generateReport rows ReportType.ORDER_COUNT).data =
      sortBy (fun a b => localeLe a.rowLabel b.rowLabel)
        (aggEntriesOf (filterRows rows) ReportType.ORDER_COUNT) := rfl
  rw [hdata, mem_sortBy] at hp
  unfold aggEntriesOf at hp
  rw [if_pos rfl] at hp
  rcases List.mem_map.mp hp with ⟨kc2, hkc2, rfl⟩
  unfold convert2 at hkc2
  rcases List.mem_map.mp hkc2 with ⟨kc, hkc, rfl⟩
  obtain ⟨q1, q2, q3, q4, q5⟩ := pass2_inv (filterRows rows) []
    (by simp [keysOf]) (by intro kc hkc; cases hkc) (by intro kc hkc; cases hkc)
  have hkcpair : (kc.1, kc.2) ∈ (filterRows rows).foldl step2 [] := by
    simpa using hkc
  have hgetkc : alGet ((filterRows rows).foldl step2 []) kc.1 = some kc.2 :=
    alGet_of_mem q1 hkcpair
  obtain ⟨T, hT2⟩ := Option.isSome_iff_exists.mp (q2 kc hkc)
  have hTnodup : T.Nodup := q3 kc hkc ("_total", T) (alGet_mem hT2)
  have hTfin : T.toFinset = (((filterRows rows).filter
      (fun r => r.district = kc.1)).map (·.docId)).toFinset := by
    have hq := q4 kc.1
    unfold cellF at hq
    rw [hgetkc, Option.some_bind, hT2] at hq
    simpa using hq
  have hlen : T.length = countDistinct (((filterRows rows).filter
      (fun r => r.district = kc.1)).map (·.docId)) := by
    unfold countDistinct
    rw [← hTfin]
    exact (List.toFinset_card_of_nodup hTnodup).symm
  dsimp only
  rw [hT2, show ((some T).getD ([] : List String)) = T from rfl, hlen]

/-- Cell values of the ORDER_COUNT report: distinct doc-id count over the
filtered rows of the district and rep. -/
theorem order_count_values_eq (rows : List ProcessedRow) :
    ∀ p ∈ (generateReport rows ReportType.ORDER_COUNT).data,
      ∀ s v, alGet p.values s = some v →
        v = JsNum.num ((countDistinct (((filterRows rows).filter
          (fun r => r.district = p.rowKey ∧ r.salesRep = s)).map
            (·.docId)) : ℚ)) := by
  intro p hp s v hv
  have hdata : (generateReport rows ReportType.ORDER_COUNT).data =
      sortBy (fun a b => localeLe a.rowLabel b.rowLabel)
        (aggEntriesOf (filterRows rows) ReportType.ORDER_COUNT) := rfl
  rw [hdata, mem_sortBy] at hp
  unfold aggEntriesOf at hp
  rw [if_pos rfl] at hp
  rcases List.mem_map.mp hp with ⟨kc2, hkc2, rfl⟩
  unfold convert2 at hkc2
  rcases List.mem_map.mp hkc2 with ⟨kc, hkc, rfl⟩
  obtain ⟨q1, q2, q3, q4, q5⟩ := pass2_inv (filterRows rows) []
    (by simp [keysOf]) (by intro kc hkc; cases hkc) (by intro kc hkc; cases hkc)
  have hkcpair : (kc.1, kc.2) ∈ (filterRows rows).foldl step2 [] := by
    simpa using hkc
  have hgetkc : alGet ((filterRows rows).foldl step2 []) kc.1 = some kc.2 :=
    alGet_of_mem q1 hkcpair
  dsimp only at hv ⊢
  have hsne : s ≠ "_total" := by
    intro hcontra
    rw [hcontra, alGet_convert2_values_total] at hv
    cases hv
  rw [alGet_convert2_values_ne kc.2 hsne] at hv
  rcases Option.map_eq_some'.mp hv with ⟨S, hS, rfl⟩
  have hSnodup : S.Nodup := q3 kc hkc (s, S) (alGet_mem hS)
  have hSfin : S.toFinset = (((filterRows rows).filter
      (fun r => r.district = kc.1 ∧ r.salesRep = s)).map (·.docId)).toFinset := by
    have hq := q5 kc.1 s hsne
    unfold cellF at hq
    rw [hgetkc, Option.some_bind, hS] at hq
    simpa using hq
  have hlen : S.length = countDistinct (((filterRows rows).filter
      (fun r => r.district = kc.1 ∧ r.salesRep = s)).map (·.docId)) := by
    unfold countDistinct
    rw [← hSfin]
    exact (List.toFinset_card_of_nodup hSnodup).symm
  rw [hlen]

/-- The `"_total"` sentinel key never appears in a `values` mapping of the
ORDER_COUNT report. -/
theorem order_count_values_total_none (rows : List ProcessedRow) :
    ∀ p ∈ (generateReport rows ReportType.ORDER_COUNT).data,
      alGet p.values "_total" = none := by
  intro p hp
  have hdata : (generateReport rows ReportType.ORDER_COUNT).data =
      sortBy (fun a b => localeLe a.rowLabel b.rowLabel)
        (aggEntriesOf (filterRows rows) ReportType.ORDER_COUNT) := rfl
  rw [hdata, mem_sortBy] at hp
  unfold aggEntriesOf at hp
  rw [if_pos rfl] at hp
  rcases List.mem_map.mp hp with ⟨kc2, hkc2, rfl⟩
  unfold convert2 at hkc2
  rcases List.mem_map.mp hkc2 with ⟨kc, hkc, rfl⟩
  dsimp only
  exact alGet_convert2_values_total kc.2

/-- C2: in the ORDER_COUNT report each present cell `values[s]` of a
district row is the number of distinct `docId` values among filtered rows
with that district and rep, while the row's total is the number of distinct
`docId` values among all filtered rows of the district — so a docId
appearing under two reps within one district counts once in the total but
once under each rep's column. -/
theorem c2_order_count_distinct (rows : List ProcessedRow) :
    ∀ p ∈ (generateReport rows ReportType.ORDER_COUNT).data,
      (∀ s v, alGet p.values s = some v →
        v = JsNum.num ((countDistinct (((filterRows rows).filter
          (fun r => r.district = p.rowKey ∧ r.salesRep = s)).map
            (·.docId)) : ℚ))) ∧
      p.total = JsNum.num ((countDistinct (((filterRows rows).filter
        (fun r => r.district = p.rowKey)).map (·.docId)) : ℚ)) :=
  fun p hp => ⟨fun s v hv => order_count_values_eq rows p hp s v hv,
    order_count_total_eq rows p hp⟩

def c2WitnessRows : List ProcessedRow :=
  [mkTestRow "1" "Lima" "Juan" "MAYORISTAS B" 10,
   mkTestRow "1" "Lima" "Ana" "MAYORISTAS B" 20]

def c2WitnessPivot : PivotData :=
  { rowKey := "Lima", rowLabel := "Lima", total := JsNum.num 1,
    values := [("Juan", JsNum.num 1), ("Ana", JsNum.num 1)] }

/-- C2 witness: one docId under two reps in one district — the row total
counts it once, each rep's cell counts it once. -/
theorem c2_order_count_distinct_witness :
    c2WitnessPivot ∈ (generateReport c2WitnessRows ReportType.ORDER_COUNT).data ∧
    JsNum.num 1 = JsNum.num ((countDistinct (((filterRows c2WitnessRows).filter
      (fun r => r.district = c2WitnessPivot.rowKey ∧ r.salesRep = "Juan")).map
        (·.docId)) : ℚ)) ∧
    c2WitnessPivot.total =
      JsNum.num ((countDistinct (((filterRows c2WitnessRows).filter
        (fun r => r.district = c2WitnessPivot.rowKey)).map (·.docId)) : ℚ)) := by
  have hmem : c2WitnessPivot ∈
      (generateReport c2WitnessRows ReportType.ORDER_COUNT).data := by decide
  have h := c2_order_count_distinct c2WitnessRows c2WitnessPivot hmem
  exact ⟨hmem, h.1 "Juan" (JsNum.num 1) (by decide), h.2⟩

/-- C10: when some filtered row's rep is literally `"_total"`, that name is
in `columns` but no `values` mapping carries it (its cell counts vanish),
while the docIds of such rows are still counted in their district's row
total — the aggregator's internal `"_total"` sentinel collides with the rep
name. -/
theorem c10_total_sentinel_collision (rows : List ProcessedRow)
    (h : "_total" ∈ (filterRows rows).map (·.salesRep)) :
    "_total" ∈ (generateReport rows ReportType.ORDER_COUNT).columns ∧
    (∀ p ∈ (generateReport rows ReportType.ORDER_COUNT).data,
      alGet p.values "_total" = none) ∧
    (∀ p ∈ (generateReport rows ReportType.ORDER_COUNT).data,
      p.total = JsNum.num ((countDistinct (((filterRows rows).filter
        (fun r => r.district = p.rowKey)).map (·.docId)) : ℚ))) := by
  refine ⟨?_, order_count_values_total_none rows, order_count_total_eq rows⟩
  have hcol : (generateReport rows ReportType.ORDER_COUNT).columns =
      sortBy (fun a b => lexLe a b)
        (dedupFirst ((filterRows rows).map (·.salesRep))) := rfl
  rw [hcol, mem_sortBy, mem_dedupFirst]
  exact h

def c10WitnessRows : List ProcessedRow :=
  [mkTestRow "7" "Lima" "_total" "MAYORISTAS B" 10,
   mkTestRow "8" "Lima" "Juan" "MAYORISTAS B" 10]

def c10WitnessPivot : PivotData :=
  { rowKey := "Lima", rowLabel := "Lima", total := JsNum.num 2,
    values := [("Juan", JsNum.num 1)] }

/-- C10 witness: a filtered row whose rep is `"_total"`: the name appears in
columns, its cell is dropped, yet its docId ("7") still raises the Lima row
total to 2. -/
theorem c10_total_sentinel_collision_witness :
    ("_total" ∈ (filterRows c10WitnessRows).map (·.salesRep)) ∧
    "_total" ∈ (generateReport c10WitnessRows ReportType.ORDER_COUNT).columns ∧
    alGet c10WitnessPivot.values "_total" = none ∧
    c10WitnessPivot ∈
      (generateReport c10WitnessRows ReportType.ORDER_COUNT).data ∧
    c10WitnessPivot.total =
      JsNum.num ((countDistinct (((filterRows c10WitnessRows).filter
        (fun r => r.district = c10WitnessPivot.rowKey)).map (·.docId)) : ℚ)) := by
  have hrep : "_total" ∈ (filterRows c10WitnessRows).map (·.salesRep) := by decide
  have hmem : c10WitnessPivot ∈
      (generateReport c10WitnessRows ReportType.ORDER_COUNT).data := by decide
  have h := c10_total_sentinel_collision c10WitnessRows hrep
  exact ⟨hrep, h.1, h.2.1 c10WitnessPivot hmem, hmem, h.2.2 c10WitnessPivot hmem⟩

end Pedidos
